import Mathlib

/-! Mount table and path resolution of `posix/mount.c`.

A shallow embedding of `oe_mount_resolve`, `oe_mount`, `oe_umount2` and
`oe_umount`, followed by theorems about them.

Conventions of the embedding.

* A C string is the `List Char` of its characters before the terminating NUL;
  reading the terminator is reading past the end of the list (`s[i]? = none`).
  A `char*` that may be `NULL` is an `Option (List Char)`.
* The static array `_mount_table` together with `_mount_table_size` is the list
  of its live slots `_mount_table[0 .. _mount_table_size)`; no function of
  `mount.c` reads a slot at or beyond `_mount_table_size`.  The `flags` member
  of `mount_point_t` is never written nor read and is not represented.
* Everything `mount.c` calls but does not define (the canonicaliser, the device
  registry, `oe_stat`, the allocator and the four device operations) is a field
  of `collaborators`; a theorem quantifies over it, so every outcome of every
  such call is covered.
* The spin lock is not represented: one call runs at a time.
-/

set_option autoImplicit false
set_option maxRecDepth 100000

namespace OEMount

/-! ## Data model -/

/-- Modelled from the spec: the `OE_E*` constants that `mount.c` raises are
declared in `corelibc/errno.h`, which is absent; only their being pairwise
distinct is used.  `other` stands for any value left in `oe_errno` by a
collaborator. -/
inductive oe_errno_t where
  | OE_EINVAL
  | OE_ENOENT
  | OE_EEXIST
  | OE_ENOMEM
  | OE_ENOTDIR
  | other (code : Nat)
deriving DecidableEq, Repr

/-- Modelled from the spec: the device kinds of `device.h` (absent); `mount.c`
only compares against `OE_DEVICE_TYPE_FILESYSTEM`. -/
inductive oe_device_type_t where
  | OE_DEVICE_TYPE_FILESYSTEM
  | OE_DEVICE_TYPE_OTHER (tag : Nat)
deriving DecidableEq, Repr

/-- Modelled from the spec: an `oe_device_t*` that is not `NULL`, as its
address and the `type` member read through it; the struct itself is declared
in `device.h` (absent). -/
structure oe_device_t where
  addr : Nat
  type : oe_device_type_t
deriving DecidableEq, Repr

/-- The struct `mount_point_t` (without the unused `flags`). -/
structure mount_point_t where
  path : List Char
  fs : oe_device_t
deriving DecidableEq, Repr

/-- The constant `MAX_MOUNT_TABLE_SIZE`. -/
def MAX_MOUNT_TABLE_SIZE : Nat := 64

/-- The file-scope variables of `mount.c` and the thread's `oe_errno`. -/
structure mount_state where
  _mount_table : List mount_point_t
  _installed_free_mount_table : Bool
  oe_errno : oe_errno_t
deriving DecidableEq, Repr

/-- Modelled from the spec: the external collaborators of `mount.c` and the
platform constant `OE_PATH_MAX`, none of which is defined in `mount.c`.
`oe_get_thread_devid = none` is `OE_DEVID_NONE`; `clone = none` is a non-zero
return of the `clone` operation, which leaves `new_device` at `NULL`, and
`clone = some d` a zero return with `new_device` set to `d`; `oe_malloc`
answers whether the allocation succeeds; `oe_stat` answers
`OE_S_ISDIR(buf.st_mode)`, or the `oe_errno` it leaves on failure; `mount` and
`unmount` answer the return value of the hook and the value of `oe_errno` it
leaves behind. -/
structure collaborators where
  OE_PATH_MAX : Nat
  oe_get_thread_devid : Option Nat
  oe_get_device : Nat → oe_device_type_t → Option oe_device_t
  oe_realpath : List Char → Except oe_errno_t (List Char)
  oe_find_device : List Char → oe_device_type_t → Option oe_device_t
  oe_stat : List Char → Except oe_errno_t Bool
  clone : oe_device_t → Option oe_device_t
  oe_malloc : Nat → Bool
  mount : oe_device_t → Option (List Char) → List Char → Nat → Int × oe_errno_t
  unmount : oe_device_t → List Char → Int × oe_errno_t

/-- The calls into collaborators that `oe_mount` and `oe_umount2` make, in
the order they are made. -/
inductive event where
  | oe_atexit
  | clone (device new_device : oe_device_t)
  | mount (device : oe_device_t) (retval : Int)
  | unmount (device : oe_device_t) (retval : Int)
  | release (device : oe_device_t)
deriving DecidableEq, Repr

/-- What `oe_mount_resolve` leaves behind: the returned pointer, the content of
the caller's `suffix` buffer and `oe_errno`. -/
structure resolve_t where
  ret : Option oe_device_t
  suffix : Option (List Char)
  oe_errno : oe_errno_t
deriving DecidableEq, Repr

/-- What `oe_mount` and `oe_umount2` leave behind. -/
structure outcome where
  ret : Int
  st : mount_state
  events : List event
deriving DecidableEq, Repr

/-! ## String helpers of corelibc -/

/-- Modelled from the spec: `oe_strlen` of corelibc (absent), the number of
characters before the terminator. -/
def oe_strlen (s : List Char) : Nat := s.length

/-- Modelled from the spec: `oe_strcmp` of corelibc (absent), with the sign of
the first difference as its value. -/
def oe_strcmp : List Char → List Char → Int
  | [], [] => 0
  | [], _ :: _ => -1
  | _ :: _, [] => 1
  | a :: s, b :: t => if a = b then oe_strcmp s t else if a.toNat < b.toNat then -1 else 1

/-- Modelled from the spec: `oe_strncmp` of corelibc (absent): as `oe_strcmp`,
over at most `n` characters. -/
def oe_strncmp : List Char → List Char → Nat → Int
  | _, _, 0 => 0
  | [], [], _ + 1 => 0
  | [], _ :: _, _ + 1 => -1
  | _ :: _, [], _ + 1 => 1
  | a :: s, b :: t, n + 1 =>
    if a = b then oe_strncmp s t n else if a.toNat < b.toNat then -1 else 1

/-- Modelled from the spec: `oe_strlcpy(dst, src, size)` of corelibc (absent):
the new content of `dst`, at most `size - 1` characters of `src`; nothing is
written when `size` is zero. -/
def oe_strlcpy (dst src : List Char) (size : Nat) : List Char :=
  if size = 0 then dst else src.take (size - 1)

/-! ## `oe_mount_resolve` -/

/-- The locals `ret`, `match_len` and the caller's buffer `suffix` during the
scan of the table. -/
structure scan_t where
  ret : Option oe_device_t
  match_len : Nat
  suffix : Option (List Char)
deriving DecidableEq, Repr

/-- One iteration of the `for` loop of `oe_mount_resolve` (lines 76 to 109). -/
def resolve_step (path_max : Nat) (realpath : List Char) (acc : scan_t)
    (mp : mount_point_t) : scan_t :=
  let len := oe_strlen mp.path
  let mpath := mp.path
  if mpath[0]? = some '/' ∧ mpath[1]? = none then
    if len > acc.match_len then
      ⟨some mp.fs, len, acc.suffix.map fun dst => oe_strlcpy dst realpath path_max⟩
    else acc
  else if oe_strncmp mpath realpath len = 0 ∧
      (realpath[len]? = some '/' ∨ realpath[len]? = none) then
    if len > acc.match_len then
      ⟨some mp.fs, len, acc.suffix.map fun dst =>
        let s := oe_strlcpy dst (realpath.drop len) path_max
        if s[0]? = none then oe_strlcpy s ['/'] path_max else s⟩
    else acc
  else acc

/-- The whole `for` loop of `oe_mount_resolve`, from `match_len = 0` and
`ret = NULL`. -/
def resolve_scan (path_max : Nat) (table : List mount_point_t) (realpath : List Char)
    (suffix : Option (List Char)) : scan_t :=
  table.foldl (resolve_step path_max realpath) ⟨none, 0, suffix⟩

/-- The function `oe_mount_resolve(path, suffix)`; `suffix` is the content of
the caller's buffer before the call (`none` for a `NULL` pointer). -/
def oe_mount_resolve (env : collaborators) (st : mount_state)
    (path : Option (List Char)) (suffix : Option (List Char)) : resolve_t :=
  match path, suffix with
  | some p, some buf =>
    match env.oe_get_thread_devid with
    | some devid =>
      match env.oe_get_device devid .OE_DEVICE_TYPE_FILESYSTEM with
      | none => ⟨none, some buf, .OE_EINVAL⟩
      | some device => ⟨some device, some (oe_strlcpy buf p env.OE_PATH_MAX), st.oe_errno⟩
    | none =>
      match env.oe_realpath p with
      | .error e => ⟨none, some buf, e⟩
      | .ok realpath =>
        let r := resolve_scan env.OE_PATH_MAX st._mount_table realpath (some buf)
        match r.ret with
        | none => ⟨none, r.suffix, .OE_ENOENT⟩
        | some device => ⟨some device, r.suffix, st.oe_errno⟩
  | _, _ => ⟨none, suffix, .OE_EINVAL⟩

/-! ## `oe_mount` -/

/-- Lines 139 to 163 of `oe_mount`: the device lookup by `filesystemtype` and
the directory check of a non-root `target`, before the lock is taken. The
result is the device found, or the value raised into `oe_errno`. -/
def oe_mount_validate (env : collaborators) (target : List Char)
    (filesystemtype : Option (List Char)) : Except oe_errno_t oe_device_t :=
  let device : Option oe_device_t :=
    match filesystemtype with
    | some f => env.oe_find_device f .OE_DEVICE_TYPE_FILESYSTEM
    | none => none
  match device with
  | none => .error .OE_EINVAL
  | some d =>
    if d.type ≠ .OE_DEVICE_TYPE_FILESYSTEM then .error .OE_EINVAL
    else if oe_strcmp target ['/'] ≠ 0 then
      match env.oe_stat target with
      | .error e => .error e
      | .ok isdir => if isdir then .ok d else .error .OE_ENOTDIR
    else .ok d

/-- Lines 165 to 238 of `oe_mount`: the part that runs with the lock held. -/
def oe_mount_locked (env : collaborators) (st : mount_state) (device : oe_device_t)
    (source : Option (List Char)) (target : List Char) (mountflags : Nat) : outcome :=
  let ev : List event := if st._installed_free_mount_table then [] else [.oe_atexit]
  let st : mount_state := ⟨st._mount_table, true, st.oe_errno⟩
  if st._mount_table.length = MAX_MOUNT_TABLE_SIZE then
    ⟨-1, ⟨st._mount_table, true, .OE_ENOMEM⟩, ev⟩
  else if st._mount_table.any (fun mp => oe_strcmp mp.path target = 0) then
    ⟨-1, ⟨st._mount_table, true, .OE_EEXIST⟩, ev⟩
  else
    match env.clone device with
    | none => ⟨-1, ⟨st._mount_table, true, .OE_ENOMEM⟩, ev⟩
    | some new_device =>
      if env.oe_malloc (oe_strlen target + 1) = false then
        ⟨-1, ⟨st._mount_table, true, .OE_ENOMEM⟩,
          ev ++ [.clone device new_device, .release new_device]⟩
      else
        let table := st._mount_table ++ [⟨target, new_device⟩]
        match env.mount new_device source target mountflags with
        | (retval, e) =>
          if retval ≠ 0 then
            ⟨-1, ⟨table.take (table.length - 1), true, e⟩,
              ev ++ [.clone device new_device, .mount new_device retval,
                .release new_device]⟩
          else
            ⟨0, ⟨table, true, e⟩, ev ++ [.clone device new_device, .mount new_device retval]⟩

/-- The function `oe_mount(source, target, filesystemtype, mountflags, data)`;
`data` is unused. -/
def oe_mount (env : collaborators) (st : mount_state) (source target : Option (List Char))
    (filesystemtype : Option (List Char)) (mountflags : Nat) : outcome :=
  match target with
  | none => ⟨-1, ⟨st._mount_table, st._installed_free_mount_table, .OE_EINVAL⟩, []⟩
  | some t =>
    match oe_mount_validate env t filesystemtype with
    | .error e => ⟨-1, ⟨st._mount_table, st._installed_free_mount_table, e⟩, []⟩
    | .ok device => oe_mount_locked env st device source t mountflags

/-! ## `oe_umount2` and `oe_umount` -/

/-- The search loop of `oe_umount2` (lines 262 to 269): the first index whose
path compares equal to `target`, with the entry found there. -/
def find_mount_point (target : List Char) :
    List mount_point_t → Nat → Option (Nat × mount_point_t)
  | [], _ => none
  | mp :: rest, i =>
    if oe_strcmp mp.path target = 0 then some (i, mp) else find_mount_point target rest (i + 1)

/-- Lines 284 to 287 of `oe_umount2`: the slot `index` receives the last live
entry and the size drops by one. `found` is the entry of slot `index`. -/
def remove_swap (table : List mount_point_t) (index : Nat) (found : mount_point_t) :
    List mount_point_t :=
  (table.set index (table.getD (table.length - 1) found)).take (table.length - 1)

/-- The function `oe_umount2(target, flags)`; `flags` is unused. The local
`suffix` buffer is only written, never read. -/
def oe_umount2 (env : collaborators) (st : mount_state) (target : Option (List Char))
    (flags : Int) : outcome :=
  let _ := flags
  let r := oe_mount_resolve env st target (some [])
  match r.ret, target with
  | some device, some t =>
    if device.type ≠ .OE_DEVICE_TYPE_FILESYSTEM then
      ⟨-1, ⟨st._mount_table, st._installed_free_mount_table, .OE_EINVAL⟩, []⟩
    else
      match find_mount_point t st._mount_table 0 with
      | none => ⟨-1, ⟨st._mount_table, st._installed_free_mount_table, .OE_ENOENT⟩, []⟩
      | some (index, found) =>
        let fs := found.fs
        let table := remove_swap st._mount_table index found
        match env.unmount fs t with
        | (retval, e) =>
          if retval ≠ 0 then
            ⟨-1, ⟨table, st._installed_free_mount_table, e⟩, [.unmount fs retval]⟩
          else
            ⟨0, ⟨table, st._installed_free_mount_table, e⟩,
              [.unmount fs retval, .release fs]⟩
  | _, _ => ⟨-1, ⟨st._mount_table, st._installed_free_mount_table, .OE_EINVAL⟩, []⟩

/-- The function `oe_umount(target)`. -/
def oe_umount (env : collaborators) (st : mount_state) (target : Option (List Char)) :
    outcome :=
  oe_umount2 env st target 0

/-! ## The matching rule in the words of the specification, and examples -/

/-- The matching rule of the specification: the root entry matches every
path, any other entry matches when the path starts with the entry's path
followed by a slash or by the end of the string. -/
def spec_matches (mpath c : List Char) : Bool :=
  mpath == ['/'] ||
    (mpath.isPrefixOf c &&
      ((c.drop mpath.length).head? == none || (c.drop mpath.length).head? == some '/'))

/-- The match length of the specification: 1 for the root entry, the length
of its path for any other entry. -/
def spec_match_length (mpath : List Char) : Nat :=
  if mpath = ['/'] then 1 else mpath.length

/-- The content the loop body gives the `suffix` buffer when the entry with
path `mpath` becomes the best match (lines 85 and 100 to 103). -/
def step_suffix (path_max : Nat) (c mpath dst : List Char) : List Char :=
  if mpath = ['/'] then oe_strlcpy dst c path_max
  else
    let s := oe_strlcpy dst (c.drop mpath.length) path_max
    if s[0]? = none then oe_strlcpy s ['/'] path_max else s

/-- The state of the locals after the entries `seen` have been scanned:
`match_len` bounds every matching entry seen, and either nothing has been
chosen yet or the choice is a matching entry of that very length. -/
def scan_inv (pm : Nat) (rp : List Char) (buf : Option (List Char))
    (seen : List mount_point_t) (acc : scan_t) : Prop :=
  (∀ e ∈ seen, spec_matches e.path rp = true → e.path.length ≤ acc.match_len) ∧
  ((acc.ret = none ∧ acc.match_len = 0 ∧ acc.suffix = buf) ∨
    (∃ e ∈ seen, spec_matches e.path rp = true ∧ 0 < e.path.length ∧ acc.ret = some e.fs ∧
      acc.match_len = e.path.length ∧ acc.suffix = buf.map (step_suffix pm rp e.path)))

/-- The suffix of the specification: `c` with its first `n` characters
stripped, an empty remainder replaced by a single slash. -/
def spec_suffix (c : List Char) (n : Nat) : List Char :=
  if c.drop n = [] then ['/'] else c.drop n

/-- A filesystem device at address `n`. -/
def fs_device (n : Nat) : oe_device_t := ⟨n, .OE_DEVICE_TYPE_FILESYSTEM⟩

/-- Collaborators for the examples: paths are already canonical, the registry
knows one filesystem device, every directory exists, `clone` hands out the
next address and both hooks succeed. -/
def sample_env : collaborators :=
  ⟨4096, none, fun _ _ => none, fun p => .ok p, fun _ _ => some (fs_device 100),
    fun _ => .ok true, fun d => some ⟨d.addr + 1, d.type⟩, fun _ => true,
    fun _ _ _ _ => (0, .other 0), fun _ _ => (0, .other 0)⟩

/-- A table with a device at the root and another at `/a`. -/
def sample_state : mount_state :=
  ⟨[⟨['/'], fs_device 1⟩, ⟨['/', 'a'], fs_device 2⟩], true, .other 0⟩

/-- A table whose only entry has the empty string as its path. -/
def empty_path_state : mount_state := ⟨[⟨[], fs_device 1⟩], true, .other 0⟩

/-- A table whose only entry is a device at the root. -/
def root_state : mount_state := ⟨[⟨['/'], fs_device 1⟩], true, .other 0⟩

/-- Collaborators whose `clone` hands out the filesystem device at address
`i + 1`; otherwise as `sample_env`. -/
def numbered_env (i : Nat) : collaborators :=
  ⟨4096, none, fun _ _ => none, fun p => .ok p, fun _ _ => some (fs_device 100),
    fun _ => .ok true, fun _ => some (fs_device (i + 1)), fun _ => true,
    fun _ _ _ _ => (0, .other 0), fun _ _ => (0, .other 0)⟩

/-- The path `/m…m` with `i + 1` letters. -/
def numbered_path (i : Nat) : List Char := '/' :: List.replicate (i + 1) 'm'

/-- The empty table at process start. -/
def initial_state : mount_state := ⟨[], false, .other 0⟩

/-- The state after `n` calls of `oe_mount`, at `numbered_path 0` up to
`numbered_path (n - 1)`, from the empty table. -/
def mounted_state (n : Nat) : mount_state :=
  (List.range n).foldl
    (fun st i => (oe_mount (numbered_env i) st none (some (numbered_path i)) (some ['f', 's']) 0).st)
    initial_state

/-- Collaborators as `sample_env`, except that the `mount` hook fails,
leaving `other 5` in `oe_errno`. -/
def failing_mount_env : collaborators :=
  ⟨4096, none, fun _ _ => none, fun p => .ok p, fun _ _ => some (fs_device 100),
    fun _ => .ok true, fun d => some ⟨d.addr + 1, d.type⟩, fun _ => true,
    fun _ _ _ _ => (-1, .other 5), fun _ _ => (0, .other 0)⟩

/-! ## Sequences of calls -/

/-- A call of `oe_mount` or of `oe_umount2`, with the collaborators as they
answer during that call. -/
inductive call where
  | mount (env : collaborators) (source target filesystemtype : Option (List Char))
      (mountflags : Nat)
  | umount2 (env : collaborators) (target : Option (List Char)) (flags : Int)

/-- The outcome of one call in a state. -/
def apply_call (st : mount_state) : call → outcome
  | .mount env source target filesystemtype mountflags =>
    oe_mount env st source target filesystemtype mountflags
  | .umount2 env target flags => oe_umount2 env st target flags

/-- The state after a sequence of calls, one after the other. -/
def run_calls (st : mount_state) (calls : List call) : mount_state :=
  calls.foldl (fun s c => (apply_call s c).st) st

/-- The state at process start: the table is empty and the exit hook is not
installed; `e` is whatever `oe_errno` holds. -/
def start_state (e : oe_errno_t) : mount_state := ⟨[], false, e⟩

/-- Collaborators as `sample_env`, except that the `unmount` hook fails,
leaving `other 7` in `oe_errno`. -/
def failing_unmount_env : collaborators :=
  ⟨4096, none, fun _ _ => none, fun p => .ok p, fun _ _ => some (fs_device 100),
    fun _ => .ok true, fun d => some ⟨d.addr + 1, d.type⟩, fun _ => true,
    fun _ _ _ _ => (0, .other 0), fun _ _ => (-1, .other 7)⟩

/-- The shape the specification gives a mount path: the root, or an absolute
string that does not end in a slash. -/
def path_shape (p : List Char) : Bool :=
  p == ['/'] || (p.head? == some '/' && p.getLast? != some '/')

/-- The strings passed as `target` by the `oe_mount` calls of a sequence. -/
def mount_targets : List call → List (List Char)
  | [] => []
  | .mount _ _ (some t) _ _ :: rest => t :: mount_targets rest
  | _ :: rest => mount_targets rest

/-- Collaborators as `sample_env`, with a canonicaliser that drops one
trailing slash of a path other than the root. -/
def trimming_env : collaborators :=
  ⟨4096, none, fun _ _ => none,
    fun p => .ok (if p.getLast? = some '/' ∧ p ≠ ['/'] then p.dropLast else p),
    fun _ _ => some (fs_device 100),
    fun _ => .ok true, fun d => some ⟨d.addr + 1, d.type⟩, fun _ => true,
    fun _ _ _ _ => (0, .other 0), fun _ _ => (0, .other 0)⟩

/-- The handles that are released, after the events of one call: a handle
enters the list when it is released and leaves it when `clone` hands it out
again. -/
def released_after (released : List oe_device_t) : List event → List oe_device_t
  | [] => released
  | .clone _ nd :: rest => released_after (released.filter (fun d => d != nd)) rest
  | .release d :: rest => released_after (d :: released) rest
  | .oe_atexit :: rest => released_after released rest
  | .mount _ _ :: rest => released_after released rest
  | .unmount _ _ :: rest => released_after released rest

/-- The handles that are released after a sequence of calls. -/
def run_released (st : mount_state) (released : List oe_device_t) :
    List call → List oe_device_t
  | [] => released
  | c :: rest =>
    run_released (apply_call st c).st (released_after released (apply_call st c).events) rest

/-- The assumption on `clone`: in each `oe_mount` call of the sequence, whatever
`clone` yields is distinct from every handle live in the table at that call. -/
def clone_fresh : mount_state → List call → Prop
  | _, [] => True
  | st, c :: rest =>
    (match c with
      | .mount env _ _ _ _ =>
        ∀ d nd, env.clone d = some nd → ∀ mp ∈ st._mount_table, mp.fs ≠ nd
      | .umount2 _ _ _ => True) ∧
    clone_fresh (apply_call st c).st rest

/-- Live handles are pairwise distinct and none of them is released. -/
def handles_inv (st : mount_state) (released : List oe_device_t) : Prop :=
  (st._mount_table.map (fun mp => mp.fs)).Nodup ∧
  ∀ mp ∈ st._mount_table, mp.fs ∉ released

/-- Collaborators as `numbered_env i`, except that the `mount` hook fails. -/
def failing_numbered_env (i : Nat) : collaborators :=
  ⟨4096, none, fun _ _ => none, fun p => .ok p, fun _ _ => some (fs_device 100),
    fun _ => .ok true, fun _ => some (fs_device (i + 1)), fun _ => true,
    fun _ _ _ _ => (-1, .other 5), fun _ _ => (0, .other 0)⟩

/-! ## Lemmas on the string helpers, the scan, `oe_mount` and `oe_umount2` -/

theorem oe_strcmp_eq_zero (a b : List Char) : oe_strcmp a b = 0 ↔ a = b := by
  induction a generalizing b with
  | nil => cases b <;> simp [oe_strcmp]
  | cons x s ih =>
    cases b with
    | nil => simp [oe_strcmp]
    | cons y t =>
      by_cases h : x = y
      · simp [oe_strcmp, h, ih]
      · by_cases h2 : x.toNat < y.toNat <;> simp [oe_strcmp, h, h2]

theorem oe_strncmp_length (m c : List Char) :
    oe_strncmp m c (oe_strlen m) = 0 ↔ m <+: c := by
  induction m generalizing c with
  | nil => simp [oe_strncmp, oe_strlen]
  | cons x s ih =>
    cases c with
    | nil => simp [oe_strncmp, oe_strlen]
    | cons y t =>
      by_cases h : x = y
      · have := ih t
        simp only [oe_strlen] at this
        simp [oe_strncmp, oe_strlen, h, this, List.cons_prefix_cons]
      · by_cases h2 : x.toNat < y.toNat <;> simp [oe_strncmp, oe_strlen, h, h2, List.cons_prefix_cons]

theorem is_root_iff (mpath : List Char) :
    (mpath[0]? = some '/' ∧ mpath[1]? = none) ↔ mpath = ['/'] := by
  match mpath with
  | [] => simp
  | [a] => simp
  | a :: b :: t => simp

theorem spec_match_length_eq (mpath : List Char) : spec_match_length mpath = mpath.length := by
  unfold spec_match_length
  split
  · next h => simp [h]
  · rfl

theorem spec_matches_root (c : List Char) : spec_matches ['/'] c = true := by
  simp [spec_matches]

theorem spec_matches_of_ne_root (mpath rp : List Char) (h : mpath ≠ ['/']) :
    spec_matches mpath rp = true ↔
      (oe_strncmp mpath rp (oe_strlen mpath) = 0 ∧
        (rp[oe_strlen mpath]? = some '/' ∨ rp[oe_strlen mpath]? = none)) := by
  rw [oe_strncmp_length]
  simp only [spec_matches, oe_strlen, List.head?_drop, Bool.or_eq_true, Bool.and_eq_true,
    beq_iff_eq, List.isPrefixOf_iff_prefix, h, false_or]
  constructor
  · rintro ⟨h1, h2⟩; exact ⟨h1, h2.symm⟩
  · rintro ⟨h1, h2⟩; exact ⟨h1, h2.symm⟩

/-- The loop body in terms of the matching rule: a matching entry strictly
longer than the best so far replaces it, anything else leaves the locals
alone. -/
theorem resolve_step_eq (pm : Nat) (rp : List Char) (acc : scan_t) (mp : mount_point_t) :
    resolve_step pm rp acc mp =
      if spec_matches mp.path rp = true ∧ acc.match_len < mp.path.length then
        ⟨some mp.fs, mp.path.length, acc.suffix.map (step_suffix pm rp mp.path)⟩
      else acc := by
  by_cases hr : mp.path = ['/']
  · have h1 : ((mp.path)[0]? = some '/' ∧ (mp.path)[1]? = none) := (is_root_iff _).2 hr
    have hs : step_suffix pm rp mp.path = fun dst => oe_strlcpy dst rp pm := by
      funext dst; simp [step_suffix, hr]
    simp only [resolve_step, h1, and_self, if_true, hs, oe_strlen]
    simp [hr, spec_matches_root]
  · have h1 : ¬ ((mp.path)[0]? = some '/' ∧ (mp.path)[1]? = none) := fun h => hr ((is_root_iff _).1 h)
    have hs : step_suffix pm rp mp.path = fun dst =>
        let s := oe_strlcpy dst (rp.drop (oe_strlen mp.path)) pm
        if s[0]? = none then oe_strlcpy s ['/'] pm else s := by
      funext dst; simp [step_suffix, hr, oe_strlen]
    simp only [resolve_step, h1, if_false, hs]
    by_cases hm : (oe_strncmp mp.path rp (oe_strlen mp.path) = 0 ∧
        (rp[oe_strlen mp.path]? = some '/' ∨ rp[oe_strlen mp.path]? = none))
    · have hsm := (spec_matches_of_ne_root _ _ hr).2 hm
      rw [if_pos hm]
      simp only [true_and, oe_strlen, gt_iff_lt, hsm]
    · have hsm : ¬ spec_matches mp.path rp = true := fun h =>
        hm ((spec_matches_of_ne_root _ _ hr).1 h)
      rw [if_neg hm]
      simp [hsm]

theorem step_suffix_absorb (pm : Nat) (rp m1 m2 dst : List Char) :
    step_suffix pm rp m2 (step_suffix pm rp m1 dst) = step_suffix pm rp m2 dst := by
  by_cases hpm : pm = 0
  · subst hpm
    simp [step_suffix, oe_strlcpy]
  · simp [step_suffix, oe_strlcpy, hpm]

theorem scan_inv_step (pm : Nat) (rp : List Char) (buf : Option (List Char))
    (seen : List mount_point_t) (acc : scan_t) (mp : mount_point_t)
    (h : scan_inv pm rp buf seen acc) :
    scan_inv pm rp buf (seen ++ [mp]) (resolve_step pm rp acc mp) := by
  obtain ⟨hb, hc⟩ := h
  rw [resolve_step_eq]
  by_cases hw : spec_matches mp.path rp = true ∧ acc.match_len < mp.path.length
  · rw [if_pos hw]
    refine ⟨?_, Or.inr ⟨mp, by simp, hw.1, by omega, rfl, rfl, ?_⟩⟩
    · intro e he hm
      rcases List.mem_append.1 he with he | he
      · have := hb e he hm
        simp only
        omega
      · simp only [List.mem_singleton] at he
        subst he
        exact le_refl _
    · rcases hc with ⟨_, _, hs⟩ | ⟨e, _, _, _, _, _, hs⟩
      · simp [hs]
      · simp only [hs, Option.map_map]
        congr 1
        funext dst
        simp [step_suffix_absorb]
  · rw [if_neg hw]
    refine ⟨?_, ?_⟩
    · intro e he hm
      rcases List.mem_append.1 he with he | he
      · exact hb e he hm
      · simp only [List.mem_singleton] at he
        subst he
        by_contra hlt
        exact hw ⟨hm, by omega⟩
    · rcases hc with hc | ⟨e, he, hrest⟩
      · exact Or.inl hc
      · exact Or.inr ⟨e, List.mem_append_left _ he, hrest⟩

theorem scan_inv_foldl (pm : Nat) (rp : List Char) (buf : Option (List Char))
    (rest seen : List mount_point_t) (acc : scan_t) (h : scan_inv pm rp buf seen acc) :
    scan_inv pm rp buf (seen ++ rest) (rest.foldl (resolve_step pm rp) acc) := by
  induction rest generalizing seen acc with
  | nil => simpa using h
  | cons mp rest ih =>
    have := ih (seen ++ [mp]) _ (scan_inv_step pm rp buf seen acc mp h)
    simpa using this

theorem scan_inv_scan (pm : Nat) (table : List mount_point_t) (rp : List Char)
    (buf : Option (List Char)) :
    scan_inv pm rp buf table (resolve_scan pm table rp buf) := by
  have h0 : scan_inv pm rp buf [] ⟨none, 0, buf⟩ := ⟨by simp, Or.inl ⟨rfl, rfl, rfl⟩⟩
  simpa [resolve_scan] using scan_inv_foldl pm rp buf table [] _ h0

/-- A scan that chose nothing saw no matching entry with a non-empty path. -/
theorem scan_none_iff (pm : Nat) (table : List mount_point_t) (rp : List Char)
    (buf : Option (List Char)) :
    (resolve_scan pm table rp buf).ret = none ↔
      ∀ e ∈ table, spec_matches e.path rp = true → e.path = [] := by
  obtain ⟨hb, hc⟩ := scan_inv_scan pm table rp buf
  constructor
  · intro hn e he hm
    rcases hc with ⟨_, h0, _⟩ | ⟨e1, _, _, _, h1, _⟩
    · have := hb e he hm
      exact List.length_eq_zero.1 (by omega)
    · rw [hn] at h1; cases h1
  · intro hall
    rcases hc with ⟨h, _, _⟩ | ⟨e1, he1, hm1, hpos, _⟩
    · exact h
    · have := hall e1 he1 hm1
      simp [this] at hpos

theorem oe_mount_resolve_scan (env : collaborators) (st : mount_state) (p rp buf : List Char)
    (hno : env.oe_get_thread_devid = none) (hc : env.oe_realpath p = .ok rp) :
    oe_mount_resolve env st (some p) (some buf) =
      match (resolve_scan env.OE_PATH_MAX st._mount_table rp (some buf)).ret with
      | none => ⟨none, (resolve_scan env.OE_PATH_MAX st._mount_table rp (some buf)).suffix,
          .OE_ENOENT⟩
      | some device =>
        ⟨some device, (resolve_scan env.OE_PATH_MAX st._mount_table rp (some buf)).suffix,
          st.oe_errno⟩ := by
  simp only [oe_mount_resolve, hno, hc]

theorem step_suffix_of_fits (pm : Nat) (rp mpath dst : List Char) (hfit : rp.length < pm)
    (hm : spec_matches mpath rp = true) (hpos : 0 < mpath.length) :
    step_suffix pm rp mpath dst =
      if mpath = ['/'] then rp else spec_suffix rp mpath.length := by
  have hpm : pm ≠ 0 := by omega
  by_cases hr : mpath = ['/']
  · simp only [step_suffix, hr, if_true, oe_strlcpy, hpm, if_false]
    exact List.take_of_length_le (by omega)
  · have hpre : mpath <+: rp := by
      simp only [spec_matches, Bool.or_eq_true, beq_iff_eq, hr, false_or, Bool.and_eq_true,
        List.isPrefixOf_iff_prefix] at hm
      exact hm.1
    have hle : mpath.length ≤ rp.length := hpre.length_le
    have h1 : (rp.drop mpath.length).take (pm - 1) = rp.drop mpath.length :=
      List.take_of_length_le (by simp; omega)
    simp only [step_suffix, hr, if_false, oe_strlcpy, hpm, h1, spec_suffix]
    by_cases hd : rp.drop mpath.length = []
    · simp only [hd, List.getElem?_nil, if_true]
      exact List.take_of_length_le (by simp; omega)
    · have : (rp.drop mpath.length)[0]? ≠ none := by
        cases hx : rp.drop mpath.length with
        | nil => exact absurd hx hd
        | cons a t => simp
      simp only [this, hd, if_false]

/-- What a successful scan returns: the device and the suffix of a matching
entry that no matching entry exceeds in length. -/
theorem scan_some (pm : Nat) (table : List mount_point_t) (rp buf : List Char)
    (dev : oe_device_t) (h : (resolve_scan pm table rp (some buf)).ret = some dev) :
    ∃ e ∈ table, e.fs = dev ∧ spec_matches e.path rp = true ∧ 0 < e.path.length ∧
      (∀ e' ∈ table, spec_matches e'.path rp = true → e'.path.length ≤ e.path.length) ∧
      (resolve_scan pm table rp (some buf)).match_len = e.path.length ∧
      (resolve_scan pm table rp (some buf)).suffix = some (step_suffix pm rp e.path buf) := by
  obtain ⟨hb, hc⟩ := scan_inv_scan pm table rp (some buf)
  rcases hc with ⟨hn, _, _⟩ | ⟨e, he, hm, hpos, hret, hlen, hs⟩
  · rw [hn] at h; cases h
  · rw [hret] at h
    refine ⟨e, he, by simpa using h, hm, hpos, ?_, hlen, by simpa using hs⟩
    intro e' he' hm'
    have := hb e' he' hm'
    omega

theorem oe_mount_locked_ret_zero (env : collaborators) (st : mount_state) (d : oe_device_t)
    (source : Option (List Char)) (t : List Char) (flags : Nat)
    (h : (oe_mount_locked env st d source t flags).ret = 0) :
    st._mount_table.length ≠ MAX_MOUNT_TABLE_SIZE ∧
    (∀ mp ∈ st._mount_table, mp.path ≠ t) ∧
    ∃ nd, env.clone d = some nd ∧
      (oe_mount_locked env st d source t flags).st._mount_table =
        st._mount_table ++ [⟨t, nd⟩] ∧
      event.clone d nd ∈ (oe_mount_locked env st d source t flags).events := by
  unfold oe_mount_locked at h ⊢
  by_cases hfull : st._mount_table.length = MAX_MOUNT_TABLE_SIZE
  · simp [hfull] at h
  · by_cases hdup : (st._mount_table.any fun mp => oe_strcmp mp.path t = 0) = true
    · simp [hfull, hdup] at h
    · have hnd : ∀ mp ∈ st._mount_table, mp.path ≠ t := by
        intro mp hmp heq
        apply hdup
        rw [List.any_eq_true]
        exact ⟨mp, hmp, by simpa using (oe_strcmp_eq_zero _ _).2 heq⟩
      refine ⟨hfull, hnd, ?_⟩
      cases hcl : env.clone d with
      | none => simp [hfull, hdup, hcl] at h
      | some nd =>
        refine ⟨nd, rfl, ?_⟩
        by_cases hml : env.oe_malloc (oe_strlen t + 1) = false
        · simp [hfull, hdup, hcl, hml] at h
        · by_cases hrc : (env.mount nd source t flags).1 = 0
          · simp [hfull, hdup, hcl, hml, hrc]
          · simp [hfull, hdup, hcl, hml, hrc] at h

theorem oe_mount_ret_zero (env : collaborators) (st : mount_state)
    (source : Option (List Char)) (t : List Char) (fstype : Option (List Char)) (flags : Nat)
    (h : (oe_mount env st source (some t) fstype flags).ret = 0) :
    st._mount_table.length ≠ MAX_MOUNT_TABLE_SIZE ∧
    (∀ mp ∈ st._mount_table, mp.path ≠ t) ∧
    ∃ d nd, oe_mount_validate env t fstype = .ok d ∧ env.clone d = some nd ∧
      (oe_mount env st source (some t) fstype flags).st._mount_table =
        st._mount_table ++ [⟨t, nd⟩] ∧
      event.clone d nd ∈ (oe_mount env st source (some t) fstype flags).events := by
  unfold oe_mount at h ⊢
  cases hv : oe_mount_validate env t fstype with
  | error e => simp [hv] at h
  | ok d =>
    simp only [hv] at h ⊢
    obtain ⟨h1, h2, nd, h3, h4, h5⟩ := oe_mount_locked_ret_zero env st d source t flags h
    exact ⟨h1, h2, d, nd, rfl, h3, h4, h5⟩

theorem spec_matches_isPrefix (m rp : List Char) (habs : rp.head? = some '/')
    (h : spec_matches m rp = true) : m <+: rp := by
  by_cases hr : m = ['/']
  · subst hr
    cases rp with
    | nil => simp at habs
    | cons a t =>
      simp only [List.head?_cons, Option.some.injEq] at habs
      subst habs
      exact ⟨t, rfl⟩
  · simp only [spec_matches, Bool.or_eq_true, beq_iff_eq, hr, false_or, Bool.and_eq_true,
      List.isPrefixOf_iff_prefix] at h
    exact h.1

/-- Two entries that match the same absolute path with the same length have
the same path: no two distinct paths tie. -/
theorem spec_matches_tie (m1 m2 rp : List Char) (habs : rp.head? = some '/')
    (h1 : spec_matches m1 rp = true) (h2 : spec_matches m2 rp = true)
    (hlen : m1.length = m2.length) : m1 = m2 := by
  have p1 := spec_matches_isPrefix m1 rp habs h1
  have p2 := spec_matches_isPrefix m2 rp habs h2
  have := List.prefix_of_prefix_length_le p1 p2 (le_of_eq hlen)
  exact this.eq_of_length hlen

theorem spec_matches_append_slash (t b : List Char) :
    spec_matches t (t ++ '/' :: b) = true := by
  simp [spec_matches]

theorem scan_suffix_some (pm : Nat) (table : List mount_point_t) (rp buf : List Char) :
    ∃ s, (resolve_scan pm table rp (some buf)).suffix = some s := by
  obtain ⟨_, hc⟩ := scan_inv_scan pm table rp (some buf)
  rcases hc with ⟨_, _, hs⟩ | ⟨e, _, _, _, _, _, hs⟩
  · exact ⟨buf, hs⟩
  · exact ⟨_, by simpa using hs⟩

theorem oe_mount_locked_full (env : collaborators) (st : mount_state) (d : oe_device_t)
    (source : Option (List Char)) (t : List Char) (flags : Nat)
    (hfull : st._mount_table.length = MAX_MOUNT_TABLE_SIZE) :
    oe_mount_locked env st d source t flags =
      ⟨-1, ⟨st._mount_table, true, .OE_ENOMEM⟩,
        if st._installed_free_mount_table then [] else [.oe_atexit]⟩ := by
  simp [oe_mount_locked, hfull]

theorem oe_mount_locked_dup (env : collaborators) (st : mount_state) (d : oe_device_t)
    (source : Option (List Char)) (t : List Char) (flags : Nat)
    (hsize : st._mount_table.length ≠ MAX_MOUNT_TABLE_SIZE)
    (hdup : ∃ mp ∈ st._mount_table, mp.path = t) :
    oe_mount_locked env st d source t flags =
      ⟨-1, ⟨st._mount_table, true, .OE_EEXIST⟩,
        if st._installed_free_mount_table then [] else [.oe_atexit]⟩ := by
  have hany : (st._mount_table.any fun mp => oe_strcmp mp.path t = 0) = true := by
    obtain ⟨mp, hmp, heq⟩ := hdup
    rw [List.any_eq_true]
    exact ⟨mp, hmp, by simpa using (oe_strcmp_eq_zero _ _).2 heq⟩
  simp [oe_mount_locked, hsize, hany]

theorem no_clone_in_atexit (b : Bool) (d nd : oe_device_t) :
    event.clone d nd ∉ (if b = true then ([] : List event) else [.oe_atexit]) := by
  cases b <;> simp

theorem oe_mount_resolve_table (env : collaborators) (st st' : mount_state)
    (path suffix : Option (List Char)) (h : st'._mount_table = st._mount_table) :
    (oe_mount_resolve env st' path suffix).ret = (oe_mount_resolve env st path suffix).ret ∧
    (oe_mount_resolve env st' path suffix).suffix =
      (oe_mount_resolve env st path suffix).suffix := by
  unfold oe_mount_resolve
  rw [h]
  cases path <;> cases suffix <;> try exact ⟨rfl, rfl⟩
  simp only
  cases env.oe_get_thread_devid with
  | some devid =>
    simp only
    cases env.oe_get_device devid .OE_DEVICE_TYPE_FILESYSTEM <;> exact ⟨rfl, rfl⟩
  | none =>
    simp only
    cases env.oe_realpath _ with
    | error e => exact ⟨rfl, rfl⟩
    | ok rp =>
      simp only
      cases (resolve_scan env.OE_PATH_MAX st._mount_table rp _).ret <;> exact ⟨rfl, rfl⟩

/-- What happens when the `mount` hook is reached and fails. -/
theorem oe_mount_locked_hook_failed (env : collaborators) (st : mount_state)
    (device : oe_device_t) (source : Option (List Char)) (t : List Char) (flags : Nat)
    (nd : oe_device_t) (rc : Int)
    (hev : event.mount nd rc ∈ (oe_mount_locked env st device source t flags).events)
    (hrc : rc ≠ 0) :
    (oe_mount_locked env st device source t flags).ret = -1 ∧
    (oe_mount_locked env st device source t flags).st.oe_errno =
      (env.mount nd source t flags).2 ∧
    (oe_mount_locked env st device source t flags).st._mount_table = st._mount_table ∧
    (oe_mount_locked env st device source t flags).events.count (.release nd) = 1 ∧
    event.clone device nd ∈ (oe_mount_locked env st device source t flags).events := by
  unfold oe_mount_locked at hev ⊢
  by_cases hfull : st._mount_table.length = MAX_MOUNT_TABLE_SIZE
  · cases hi : st._installed_free_mount_table <;> simp [hfull, hi] at hev
  · by_cases hdup : (st._mount_table.any fun mp => oe_strcmp mp.path t = 0) = true
    · cases hi : st._installed_free_mount_table <;> simp [hfull, hdup, hi] at hev
    · cases hcl : env.clone device with
      | none => cases hi : st._installed_free_mount_table <;> simp [hfull, hdup, hcl, hi] at hev
      | some nd' =>
        by_cases hml : env.oe_malloc (oe_strlen t + 1) = false
        · cases hi : st._installed_free_mount_table <;> simp [hfull, hdup, hcl, hml, hi] at hev
        · by_cases hz : (env.mount nd' source t flags).1 = 0
          · cases hi : st._installed_free_mount_table <;>
              simp [hfull, hdup, hcl, hml, hz, hi] at hev <;>
              exact absurd hev.2 hrc
          · have hnd : nd = nd' := by
              cases hi : st._installed_free_mount_table <;>
                simp [hfull, hdup, hcl, hml, hz, hi] at hev <;> exact hev.1
            subst hnd
            cases hi : st._installed_free_mount_table <;>
              simp [hfull, hdup, hcl, hml, hz, hi, List.count_cons]

theorem find_mount_point_none (t : List Char) (l : List mount_point_t) (i : Nat) :
    find_mount_point t l i = none ↔ ∀ mp ∈ l, mp.path ≠ t := by
  induction l generalizing i with
  | nil => simp [find_mount_point]
  | cons mp rest ih =>
    by_cases h : mp.path = t
    · have h0 : oe_strcmp mp.path t = 0 := (oe_strcmp_eq_zero _ _).2 h
      simp only [find_mount_point, h0, if_true]
      simp [h]
    · have h0 : ¬ oe_strcmp mp.path t = 0 := fun h0 => h ((oe_strcmp_eq_zero _ _).1 h0)
      simp [find_mount_point, h0, h, ih]

theorem find_mount_point_some (t : List Char) (l : List mount_point_t) (i idx : Nat)
    (e : mount_point_t) (h : find_mount_point t l i = some (idx, e)) :
    ∃ j, idx = i + j ∧ l[j]? = some e ∧ e.path = t := by
  induction l generalizing i with
  | nil => simp [find_mount_point] at h
  | cons mp rest ih =>
    by_cases h0 : oe_strcmp mp.path t = 0
    · simp only [find_mount_point, h0, if_true, Option.some.injEq, Prod.mk.injEq] at h
      obtain ⟨h1, h2⟩ := h
      subst h2
      exact ⟨0, by omega, by simp, (oe_strcmp_eq_zero _ _).1 h0⟩
    · simp only [find_mount_point, h0, if_false] at h
      obtain ⟨j, hj, hget, hp⟩ := ih (i + 1) h
      exact ⟨j + 1, by omega, by simpa using hget, hp⟩

/-- The case analysis of `oe_umount`: the only way to return 0. -/
theorem oe_umount_ret_zero (env : collaborators) (st : mount_state) (t : List Char)
    (h : (oe_umount env st (some t)).ret = 0) :
    ∃ idx e, find_mount_point t st._mount_table 0 = some (idx, e) ∧
      (oe_umount env st (some t)).st._mount_table = remove_swap st._mount_table idx e ∧
      (oe_umount env st (some t)).events = [.unmount e.fs 0, .release e.fs] := by
  unfold oe_umount oe_umount2 at h ⊢
  simp only at h ⊢
  cases hr : (oe_mount_resolve env st (some t) (some [])).ret with
  | none => simp [hr] at h
  | some device =>
    simp only [hr] at h ⊢
    by_cases hty : device.type ≠ .OE_DEVICE_TYPE_FILESYSTEM
    · simp [hty] at h
    · simp only [hty, if_false] at h ⊢
      cases hf : find_mount_point t st._mount_table 0 with
      | none => simp [hf] at h
      | some pr =>
        obtain ⟨idx, e⟩ := pr
        simp only [hf] at h ⊢
        by_cases hz : (env.unmount e.fs t).1 = 0
        · exact ⟨idx, e, rfl, by simp [hz], by simp [hz]⟩
        · simp [hz] at h

theorem set_cons_perm (l : List mount_point_t) (i : Nat) (e a : mount_point_t)
    (h : l[i]? = some e) : (e :: l.set i a).Perm (a :: l) := by
  induction l generalizing i with
  | nil => simp at h
  | cons x xs ih =>
    cases i with
    | zero =>
      simp only [List.getElem?_cons_zero, Option.some.injEq] at h
      subst h
      simpa using List.Perm.swap a x xs
    | succ i =>
      simp only [List.getElem?_cons_succ] at h
      have h1 := ih i h
      simp only [List.set_cons_succ]
      exact ((List.Perm.swap x e _).trans (h1.cons x)).trans (List.Perm.swap a x xs)

/-- Swap-removal takes exactly one copy of the entry found out of the table. -/
theorem remove_swap_perm (l : List mount_point_t) (j : Nat) (e : mount_point_t)
    (h : l[j]? = some e) : (e :: remove_swap l j e).Perm l := by
  rcases List.eq_nil_or_concat l with hnil | ⟨init, last, hl⟩
  · subst hnil; simp at h
  · rw [List.concat_eq_append] at hl
    subst hl
    have hlast : (init ++ [last]).getD ((init ++ [last]).length - 1) e = last := by
      simp [List.getD_eq_getElem?_getD]
    unfold remove_swap
    rw [hlast]
    have hlen : (init ++ [last]).length - 1 = init.length := by simp
    rw [hlen]
    by_cases hj : j < init.length
    · have hget : init[j]? = some e := by
        rw [List.getElem?_append_left hj] at h
        exact h
      rw [List.set_append_left _ _ hj]
      have htake : (init.set j last ++ [last]).take init.length = init.set j last := by
        have : init.length = (init.set j last).length := by simp
        rw [this, List.take_left']
        rfl
      rw [htake]
      exact (set_cons_perm init j e last hget).trans (List.perm_append_singleton last init).symm
    · have hjlt : j < (init ++ [last]).length := by
        by_contra hcon
        rw [List.getElem?_eq_none (by omega)] at h
        cases h
      have hjeq : j = init.length := by simp at hjlt; omega
      subst hjeq
      have he : e = last := by simpa using h.symm
      subst he
      have hset : (init ++ [e]).set init.length e = init ++ [e] := by
        rw [List.set_append_right _ _ (le_refl _)]
        simp
      rw [hset]
      simp only [List.take_left']
      exact (List.perm_append_singleton e init).symm

/-- The scan does not depend on the order of the table: two tables with the
same entries, pairwise distinct in their paths, give the same locals on an
absolute path. -/
theorem resolve_scan_congr (pm : Nat) (t1 t2 : List mount_point_t) (rp : List Char)
    (buf : Option (List Char)) (habs : rp.head? = some '/')
    (hmem : ∀ e, e ∈ t1 ↔ e ∈ t2)
    (hinj : ∀ e ∈ t1, ∀ e' ∈ t1, e.path = e'.path → e = e') :
    resolve_scan pm t1 rp buf = resolve_scan pm t2 rp buf := by
  obtain ⟨hb1, hc1⟩ := scan_inv_scan pm t1 rp buf
  obtain ⟨hb2, hc2⟩ := scan_inv_scan pm t2 rp buf
  generalize resolve_scan pm t1 rp buf = r1 at hb1 hc1 ⊢
  generalize resolve_scan pm t2 rp buf = r2 at hb2 hc2 ⊢
  obtain ⟨ret1, len1, suf1⟩ := r1
  obtain ⟨ret2, len2, suf2⟩ := r2
  simp only at hb1 hc1 hb2 hc2
  rcases hc1 with ⟨hr1, hl1, hs1⟩ | ⟨e1, he1, hm1, hp1, hr1, hl1, hs1⟩
  · rcases hc2 with ⟨hr2, hl2, hs2⟩ | ⟨e2, he2, hm2, hp2, hr2, hl2, hs2⟩
    · subst hr1 hl1 hs1 hr2 hl2 hs2; rfl
    · have := hb1 e2 ((hmem e2).2 he2) hm2
      omega
  · rcases hc2 with ⟨hr2, hl2, hs2⟩ | ⟨e2, he2, hm2, hp2, hr2, hl2, hs2⟩
    · have := hb2 e1 ((hmem e1).1 he1) hm1
      omega
    · have h12 := hb2 e1 ((hmem e1).1 he1) hm1
      have h21 := hb1 e2 ((hmem e2).2 he2) hm2
      have hpath : e1.path = e2.path :=
        spec_matches_tie _ _ rp habs hm1 hm2 (by omega)
      have heq : e1 = e2 := hinj e1 he1 e2 ((hmem e2).2 he2) hpath
      subst heq
      subst hr1 hl1 hs1 hr2 hl2 hs2; rfl

theorem oe_mount_resolve_congr (env : collaborators) (st st' : mount_state)
    (path suffix : Option (List Char))
    (habs : ∀ q c, path = some q → env.oe_realpath q = .ok c → c.head? = some '/')
    (herrno : st'.oe_errno = st.oe_errno)
    (hmem : ∀ e, e ∈ st._mount_table ↔ e ∈ st'._mount_table)
    (hinj : ∀ e ∈ st._mount_table, ∀ e' ∈ st._mount_table, e.path = e'.path → e = e') :
    oe_mount_resolve env st path suffix = oe_mount_resolve env st' path suffix := by
  unfold oe_mount_resolve
  rw [herrno]
  cases path with
  | none => rfl
  | some p =>
    cases suffix with
    | none => rfl
    | some buf =>
      simp only
      cases env.oe_get_thread_devid with
      | some devid => rfl
      | none =>
        simp only
        cases hrp : env.oe_realpath p with
        | error e => rfl
        | ok rp =>
          simp only
          rw [resolve_scan_congr env.OE_PATH_MAX st._mount_table st'._mount_table rp (some buf)
            (habs p rp rfl hrp) hmem hinj]

theorem mem_remove_swap (l : List mount_point_t) (j : Nat) (e : mount_point_t) (t : List Char)
    (hnodup : (l.map (fun mp => mp.path)).Nodup) (h : l[j]? = some e) (ht : e.path = t)
    (x : mount_point_t) :
    x ∈ remove_swap l j e ↔ x ∈ l.filter (fun mp => mp.path != t) := by
  have hperm := remove_swap_perm l j e h
  have hnd : (e :: remove_swap l j e).Nodup :=
    hperm.nodup_iff.2 (List.Nodup.of_map _ hnodup)
  have hinj := List.inj_on_of_nodup_map hnodup
  have hel : e ∈ l := List.getElem?_mem h
  rw [List.mem_filter]
  constructor
  · intro hx
    have hxl : x ∈ l := hperm.subset (List.mem_cons_of_mem _ hx)
    refine ⟨hxl, ?_⟩
    simp only [bne_iff_ne, ne_eq]
    intro hp
    have : x = e := hinj hxl hel (hp.trans ht.symm)
    subst this
    exact (List.nodup_cons.1 hnd).1 hx
  · rintro ⟨hxl, hp⟩
    simp only [bne_iff_ne, ne_eq] at hp
    rcases List.mem_cons.1 (hperm.symm.subset hxl) with hxe | hx
    · subst hxe; exact absurd ht hp
    · exact hx

/-! ## Lemmas on the outcomes of a call and on sequences of calls -/

/-- Every way `oe_mount` can end: without touching the table or a device;
with a clone that is released again and the table as before; or with the
clone appended as the last entry. -/
theorem oe_mount_cases (env : collaborators) (st : mount_state)
    (source target fstype : Option (List Char)) (flags : Nat) :
    ((oe_mount env st source target fstype flags).ret = -1 ∧
      (oe_mount env st source target fstype flags).st._mount_table = st._mount_table ∧
      ((oe_mount env st source target fstype flags).events = [] ∨
        (oe_mount env st source target fstype flags).events = [.oe_atexit])) ∨
    (∃ t d nd pre mid, target = some t ∧ oe_mount_validate env t fstype = .ok d ∧
      env.clone d = some nd ∧
      st._mount_table.length ≠ MAX_MOUNT_TABLE_SIZE ∧
      (oe_mount env st source target fstype flags).ret = -1 ∧
      (oe_mount env st source target fstype flags).st._mount_table = st._mount_table ∧
      (pre = [] ∨ pre = [.oe_atexit]) ∧
      (mid = [] ∨ ∃ rc, mid = [.mount nd rc]) ∧
      (oe_mount env st source target fstype flags).events =
        pre ++ .clone d nd :: (mid ++ [.release nd])) ∨
    (∃ t d nd pre, target = some t ∧ oe_mount_validate env t fstype = .ok d ∧
      env.clone d = some nd ∧
      st._mount_table.length ≠ MAX_MOUNT_TABLE_SIZE ∧
      (∀ mp ∈ st._mount_table, mp.path ≠ t) ∧
      (oe_mount env st source target fstype flags).ret = 0 ∧
      (oe_mount env st source target fstype flags).st._mount_table =
        st._mount_table ++ [⟨t, nd⟩] ∧
      (pre = [] ∨ pre = [.oe_atexit]) ∧
      (oe_mount env st source target fstype flags).events =
        pre ++ [.clone d nd, .mount nd 0]) := by
  have hpre : ∀ b : Bool, (if b = true then ([] : List event) else [.oe_atexit]) = [] ∨
      (if b = true then ([] : List event) else [.oe_atexit]) = [.oe_atexit] := by
    intro b; cases b <;> simp
  unfold oe_mount
  cases target with
  | none => exact Or.inl ⟨rfl, rfl, Or.inl rfl⟩
  | some t =>
    simp only
    cases hv : oe_mount_validate env t fstype with
    | error e => exact Or.inl ⟨rfl, rfl, Or.inl rfl⟩
    | ok d =>
      simp only
      unfold oe_mount_locked
      by_cases hfull : st._mount_table.length = MAX_MOUNT_TABLE_SIZE
      · left
        rw [if_pos hfull]
        exact ⟨rfl, rfl, hpre _⟩
      · by_cases hdup : (st._mount_table.any fun mp => oe_strcmp mp.path t = 0) = true
        · left
          rw [if_neg hfull, if_pos hdup]
          exact ⟨rfl, rfl, hpre _⟩
        · have hnd : ∀ mp ∈ st._mount_table, mp.path ≠ t := by
            intro mp hmp heq
            apply hdup
            rw [List.any_eq_true]
            exact ⟨mp, hmp, by simpa using (oe_strcmp_eq_zero _ _).2 heq⟩
          cases hcl : env.clone d with
          | none =>
            left
            rw [if_neg hfull, if_neg hdup]
            exact ⟨rfl, rfl, hpre _⟩
          | some nd =>
            by_cases hml : env.oe_malloc (oe_strlen t + 1) = false
            · right; left
              refine ⟨t, d, nd, (if st._installed_free_mount_table = true then [] else [.oe_atexit]), [], rfl, hv, hcl, hfull, ?_, ?_, hpre _, Or.inl rfl, ?_⟩ <;>
                simp [hfull, hdup, hml]
            · by_cases hz : (env.mount nd source t flags).1 = 0
              · right; right
                refine ⟨t, d, nd, (if st._installed_free_mount_table = true then [] else [.oe_atexit]), rfl, hv, hcl, hfull, hnd, ?_, ?_, hpre _, ?_⟩ <;>
                  simp [hfull, hdup, hml, hz]
              · right; left
                refine ⟨t, d, nd, (if st._installed_free_mount_table = true then [] else [.oe_atexit]),
                  [.mount nd (env.mount nd source t flags).1], rfl, hv, hcl,
                  hfull, ?_, ?_, hpre _, Or.inr ⟨_, rfl⟩, ?_⟩ <;>
                  simp [hfull, hdup, hml, hz]

/-- Every way `oe_umount2` can end: without touching the table or a device,
or with the first entry of path `target` swap-removed and its `unmount` hook
called, the handle being released when the hook returned 0. -/
theorem oe_umount2_cases (env : collaborators) (st : mount_state)
    (target : Option (List Char)) (flags : Int) :
    ((oe_umount2 env st target flags).ret = -1 ∧
      (oe_umount2 env st target flags).st._mount_table = st._mount_table ∧
      (oe_umount2 env st target flags).events = []) ∨
    (∃ t idx e dev, target = some t ∧
      (oe_mount_resolve env st target (some [])).ret = some dev ∧
      dev.type = .OE_DEVICE_TYPE_FILESYSTEM ∧
      find_mount_point t st._mount_table 0 = some (idx, e) ∧
      (oe_umount2 env st target flags).st._mount_table = remove_swap st._mount_table idx e ∧
      (((oe_umount2 env st target flags).ret = -1 ∧ (env.unmount e.fs t).1 ≠ 0 ∧
          (oe_umount2 env st target flags).st.oe_errno = (env.unmount e.fs t).2 ∧
          (oe_umount2 env st target flags).events = [.unmount e.fs (env.unmount e.fs t).1]) ∨
        ((oe_umount2 env st target flags).ret = 0 ∧ (env.unmount e.fs t).1 = 0 ∧
          (oe_umount2 env st target flags).events = [.unmount e.fs 0, .release e.fs]))) := by
  unfold oe_umount2
  simp only
  cases hr : (oe_mount_resolve env st target (some [])).ret with
  | none => exact Or.inl ⟨rfl, rfl, rfl⟩
  | some device =>
    cases target with
    | none => exact Or.inl ⟨rfl, rfl, rfl⟩
    | some t =>
      simp only
      by_cases hty : device.type = .OE_DEVICE_TYPE_FILESYSTEM
      · simp only [hty, ne_eq, not_true_eq_false, if_false]
        cases hf : find_mount_point t st._mount_table 0 with
        | none => exact Or.inl ⟨rfl, rfl, rfl⟩
        | some pr =>
          obtain ⟨idx, e⟩ := pr
          right
          refine ⟨t, idx, e, device, rfl, rfl, hty, hf, ?_⟩
          by_cases hz : (env.unmount e.fs t).1 = 0
          · simp [hz]
          · simp [hz]
      · left
        simp [hty]

theorem run_calls_append (st : mount_state) (calls : List call) (c : call) :
    run_calls st (calls ++ [c]) = (apply_call (run_calls st calls) c).st := by
  simp [run_calls, List.foldl_append]

/-- Induction over a sequence of calls: what holds at the start and is kept by
every call holds at the end. -/
theorem run_calls_induction (P : mount_state → Prop) (st : mount_state)
    (calls : List call) (h0 : P st) (hstep : ∀ s c, P s → P (apply_call s c).st) :
    P (run_calls st calls) := by
  induction calls generalizing st with
  | nil => exact h0
  | cons c rest ih => exact ih (apply_call st c).st (hstep st c h0)

theorem remove_swap_length (l : List mount_point_t) (j : Nat) (e : mount_point_t)
    (h : l[j]? = some e) : (remove_swap l j e).length + 1 = l.length := by
  have := (remove_swap_perm l j e h).length_eq
  simpa using this

theorem remove_swap_nodup_paths (l : List mount_point_t) (j : Nat) (e : mount_point_t)
    (h : l[j]? = some e) (hnodup : (l.map (fun mp => mp.path)).Nodup) :
    ((remove_swap l j e).map (fun mp => mp.path)).Nodup := by
  have hp := (remove_swap_perm l j e h).map (fun mp => mp.path)
  have := hp.nodup_iff.2 hnodup
  simp only [List.map_cons] at this
  exact (List.nodup_cons.1 this).2

/-- A call keeps the paths of the table pairwise distinct. -/
theorem apply_call_nodup_paths (st : mount_state) (c : call)
    (h : (st._mount_table.map (fun mp => mp.path)).Nodup) :
    (((apply_call st c).st._mount_table).map (fun mp => mp.path)).Nodup := by
  cases c with
  | mount env source target fstype flags =>
    simp only [apply_call]
    rcases oe_mount_cases env st source target fstype flags with
      ⟨_, ht, _⟩ | ⟨t, d, nd, pre, mid, _, _, _, _, _, ht, _⟩ |
      ⟨t, d, nd, pre, _, _, _, _, hnd, _, ht, _⟩
    · rw [ht]; exact h
    · rw [ht]; exact h
    · rw [ht, List.map_append, List.nodup_append]
      refine ⟨h, by simp, ?_⟩
      intro a ha hb
      simp only [List.map_cons, List.map_nil, List.mem_singleton] at hb
      subst hb
      obtain ⟨mp, hmp, hpath⟩ := List.mem_map.1 ha
      exact hnd mp hmp hpath
  | umount2 env target flags =>
    simp only [apply_call]
    rcases oe_umount2_cases env st target flags with
      ⟨_, ht, _⟩ | ⟨t, idx, e, dev, _, _, _, hf, ht, _⟩
    · rw [ht]; exact h
    · obtain ⟨j, hj, hget, _⟩ := find_mount_point_some t st._mount_table 0 idx e hf
      have hidx : idx = j := by omega
      subst hidx
      rw [ht]
      exact remove_swap_nodup_paths _ _ _ hget h

/-- A call keeps the table within its 64 slots. -/
theorem apply_call_length_le (st : mount_state) (c : call)
    (h : st._mount_table.length ≤ MAX_MOUNT_TABLE_SIZE) :
    (apply_call st c).st._mount_table.length ≤ MAX_MOUNT_TABLE_SIZE := by
  cases c with
  | mount env source target fstype flags =>
    simp only [apply_call]
    rcases oe_mount_cases env st source target fstype flags with
      ⟨_, ht, _⟩ | ⟨t, d, nd, pre, mid, _, _, _, _, _, ht, _⟩ |
      ⟨t, d, nd, pre, _, _, _, hsize, _, _, ht, _⟩
    · rw [ht]; exact h
    · rw [ht]; exact h
    · rw [ht, List.length_append]
      simp only [List.length_singleton]
      omega
  | umount2 env target flags =>
    simp only [apply_call]
    rcases oe_umount2_cases env st target flags with
      ⟨_, ht, _⟩ | ⟨t, idx, e, dev, _, _, _, hf, ht, _⟩
    · rw [ht]; exact h
    · obtain ⟨j, hj, hget, _⟩ := find_mount_point_some t st._mount_table 0 idx e hf
      have hidx : idx = j := by omega
      subst hidx
      rw [ht]
      have := remove_swap_length st._mount_table idx e hget
      omega

theorem remove_swap_getElem? (l : List mount_point_t) (i : Nat) (e : mount_point_t) (j : Nat)
    (hi : i < l.length) (hj : j < l.length - 1) :
    (remove_swap l i e)[j]? = if j = i then l[l.length - 1]? else l[j]? := by
  have hlast : l.getD (l.length - 1) e = l[l.length - 1] := by
    rw [List.getD_eq_getElem?_getD, List.getElem?_eq_getElem (by omega)]
    rfl
  unfold remove_swap
  rw [List.getElem?_take_of_lt hj, hlast, List.getElem?_set]
  by_cases hji : j = i
  · subst hji
    simp only [if_true, hi]
    rw [List.getElem?_eq_getElem (by omega)]
  · have : ¬ i = j := fun h => hji h.symm
    simp only [this, hji, if_false]

theorem find_mount_point_append_new (t : List Char) (l : List mount_point_t)
    (x : mount_point_t) (i : Nat) (hnot : ∀ mp ∈ l, mp.path ≠ t) (hx : x.path = t) :
    find_mount_point t (l ++ [x]) i = some (i + l.length, x) := by
  induction l generalizing i with
  | nil =>
    have h0 : oe_strcmp x.path t = 0 := (oe_strcmp_eq_zero _ _).2 hx
    simp [find_mount_point, h0]
  | cons mp rest ih =>
    have hne : ¬ oe_strcmp mp.path t = 0 := fun h =>
      hnot mp (List.mem_cons_self _ _) ((oe_strcmp_eq_zero _ _).1 h)
    have h1 := ih (i + 1) (fun m hm => hnot m (List.mem_cons_of_mem _ hm))
    rw [List.cons_append]
    simp only [find_mount_point, hne, if_false]
    rw [h1]
    simp only [List.length_cons]
    congr 2
    omega

theorem remove_swap_last (l : List mount_point_t) (x : mount_point_t) :
    remove_swap (l ++ [x]) l.length x = l := by
  unfold remove_swap
  have hlen : (l ++ [x]).length - 1 = l.length := by simp
  rw [hlen]
  have hget : (l ++ [x]).getD l.length x = x := by simp [List.getD_eq_getElem?_getD]
  rw [hget, List.set_append_right _ _ (le_refl _)]
  simp

/-- A call only adds an entry whose path is the target of the call. -/
theorem apply_call_paths (P : List Char → Prop) (st : mount_state) (c : call)
    (h : ∀ mp ∈ st._mount_table, P mp.path) (hc : ∀ t ∈ mount_targets [c], P t) :
    ∀ mp ∈ (apply_call st c).st._mount_table, P mp.path := by
  cases c with
  | mount env source target fstype flags =>
    simp only [apply_call]
    rcases oe_mount_cases env st source target fstype flags with
      ⟨_, ht, _⟩ | ⟨t, d, nd, pre, mid, _, _, _, _, _, ht, _⟩ |
      ⟨t, d, nd, pre, htt, _, _, _, _, _, ht, _⟩
    · rw [ht]; exact h
    · rw [ht]; exact h
    · subst htt
      rw [ht]
      intro mp hmp
      rcases List.mem_append.1 hmp with hmp | hmp
      · exact h mp hmp
      · simp only [List.mem_singleton] at hmp
        subst hmp
        exact hc t (by simp [mount_targets])
  | umount2 env target flags =>
    simp only [apply_call]
    rcases oe_umount2_cases env st target flags with
      ⟨_, ht, _⟩ | ⟨t, idx, e, dev, _, _, _, hf, ht, _⟩
    · rw [ht]; exact h
    · obtain ⟨j, hj, hget, _⟩ := find_mount_point_some t st._mount_table 0 idx e hf
      have hidx : idx = j := by omega
      subst hidx
      rw [ht]
      intro mp hmp
      exact h mp ((remove_swap_perm _ _ _ hget).subset (List.mem_cons_of_mem _ hmp))

theorem mount_targets_cons (c : call) (rest : List call) :
    mount_targets (c :: rest) = mount_targets [c] ++ mount_targets rest := by
  cases c with
  | mount env source target fstype flags =>
    cases target <;> simp [mount_targets]
  | umount2 env target flags => simp [mount_targets]

theorem run_calls_paths (P : List Char → Prop) (calls : List call) (st : mount_state)
    (h : ∀ mp ∈ st._mount_table, P mp.path) (hc : ∀ t ∈ mount_targets calls, P t) :
    ∀ mp ∈ (run_calls st calls)._mount_table, P mp.path := by
  induction calls generalizing st with
  | nil => exact h
  | cons c rest ih =>
    rw [mount_targets_cons] at hc
    exact ih (apply_call st c).st
      (apply_call_paths P st c h (fun t ht => hc t (List.mem_append_left _ ht)))
      (fun t ht => hc t (List.mem_append_right _ ht))

theorem handles_inv_mount (env : collaborators) (st : mount_state)
    (source target fstype : Option (List Char)) (flags : Nat) (released : List oe_device_t)
    (h : handles_inv st released)
    (hfresh : ∀ d nd, env.clone d = some nd → ∀ mp ∈ st._mount_table, mp.fs ≠ nd) :
    handles_inv (oe_mount env st source target fstype flags).st
      (released_after released (oe_mount env st source target fstype flags).events) := by
  obtain ⟨hnd, hrel⟩ := h
  rcases oe_mount_cases env st source target fstype flags with
    ⟨_, ht, hev | hev⟩ | ⟨t, d, nd, pre, mid, _, _, hcl, _, _, ht, hpre, hmid, hev⟩ |
    ⟨t, d, nd, pre, _, _, hcl, _, _, _, ht, hpre, hev⟩
  · rw [hev]; unfold handles_inv; rw [ht]; exact ⟨hnd, hrel⟩
  · rw [hev]; unfold handles_inv; rw [ht]; exact ⟨hnd, hrel⟩
  · have hr : released_after released (oe_mount env st source target fstype flags).events =
        nd :: released.filter (fun x => x != nd) := by
      rw [hev]
      rcases hpre with rfl | rfl <;> rcases hmid with rfl | ⟨rc, rfl⟩ <;> simp [released_after]
    rw [hr]
    unfold handles_inv
    rw [ht]
    refine ⟨hnd, ?_⟩
    intro mp hmp hmem
    rcases List.mem_cons.1 hmem with h1 | h1
    · exact hfresh d nd hcl mp hmp h1
    · exact hrel mp hmp (List.mem_filter.1 h1).1
  · have hr : released_after released (oe_mount env st source target fstype flags).events =
        released.filter (fun x => x != nd) := by
      rw [hev]
      rcases hpre with rfl | rfl <;> simp [released_after]
    rw [hr]
    unfold handles_inv
    rw [ht]
    refine ⟨?_, ?_⟩
    · rw [List.map_append, List.nodup_append]
      refine ⟨hnd, by simp, ?_⟩
      intro a ha hb
      simp only [List.map_cons, List.map_nil, List.mem_singleton] at hb
      subst hb
      obtain ⟨mp, hmp, hfs⟩ := List.mem_map.1 ha
      exact hfresh d _ hcl mp hmp hfs
    · intro mp hmp hmem
      rcases List.mem_append.1 hmp with h1 | h1
      · exact hrel mp h1 (List.mem_filter.1 hmem).1
      · simp only [List.mem_singleton] at h1
        subst h1
        have := (List.mem_filter.1 hmem).2
        simp at this

theorem handles_inv_umount2 (env : collaborators) (st : mount_state)
    (target : Option (List Char)) (flags : Int) (released : List oe_device_t)
    (h : handles_inv st released) :
    handles_inv (oe_umount2 env st target flags).st
      (released_after released (oe_umount2 env st target flags).events) := by
  obtain ⟨hnd, hrel⟩ := h
  rcases oe_umount2_cases env st target flags with
    ⟨_, ht, hev⟩ | ⟨t, idx, e, dev, _, _, _, hf, ht, hcase⟩
  · rw [hev]; unfold handles_inv; rw [ht]; exact ⟨hnd, hrel⟩
  · obtain ⟨j, hj, hget, _⟩ := find_mount_point_some t st._mount_table 0 idx e hf
    have hidx : idx = j := by omega
    subst hidx
    have hperm := remove_swap_perm st._mount_table idx e hget
    have hnd' : ((e :: remove_swap st._mount_table idx e).map (fun mp => mp.fs)).Nodup :=
      (hperm.map (fun mp => mp.fs)).nodup_iff.2 hnd
    simp only [List.map_cons] at hnd'
    have hsub : ∀ mp ∈ remove_swap st._mount_table idx e, mp ∈ st._mount_table :=
      fun mp hmp => hperm.subset (List.mem_cons_of_mem _ hmp)
    unfold handles_inv
    rw [ht]
    refine ⟨(List.nodup_cons.1 hnd').2, ?_⟩
    rcases hcase with ⟨_, _, _, hev⟩ | ⟨_, _, hev⟩
    · rw [hev]
      simp only [released_after]
      exact fun mp hmp => hrel mp (hsub mp hmp)
    · rw [hev]
      simp only [released_after]
      intro mp hmp hmem
      rcases List.mem_cons.1 hmem with h1 | h1
      · exact (List.nodup_cons.1 hnd').1 (List.mem_map.2 ⟨mp, hmp, h1⟩)
      · exact hrel mp (hsub mp hmp) h1

theorem handles_inv_run (calls : List call) (st : mount_state) (released : List oe_device_t)
    (h : handles_inv st released) (hfresh : clone_fresh st calls) :
    handles_inv (run_calls st calls) (run_released st released calls) := by
  induction calls generalizing st released with
  | nil => exact h
  | cons c rest ih =>
    obtain ⟨hc, hrest⟩ := hfresh
    have hstep : handles_inv (apply_call st c).st
        (released_after released (apply_call st c).events) := by
      cases c with
      | mount env source target fstype flags =>
        exact handles_inv_mount env st source target fstype flags released h hc
      | umount2 env target flags =>
        exact handles_inv_umount2 env st target flags released h
    exact ih (apply_call st c).st _ hstep hrest

/-! ## Theorems on resolution, mount and unmount -/

/-- C1: without a thread device override, when `oe_mount_resolve` succeeds on a
path whose canonical form is `c`, the device returned is the device of a table
entry that matches `c`, and no table entry that matches `c` has a strictly
greater match length. -/
theorem resolve_longest_match (env : collaborators) (st : mount_state)
    (p c buf : List Char) (dev : oe_device_t)
    (hno : env.oe_get_thread_devid = none) (hc : env.oe_realpath p = .ok c)
    (hres : (oe_mount_resolve env st (some p) (some buf)).ret = some dev) :
    ∃ e ∈ st._mount_table, e.fs = dev ∧ spec_matches e.path c = true ∧
      ∀ e' ∈ st._mount_table, spec_matches e'.path c = true →
        ¬ spec_match_length e.path < spec_match_length e'.path := by
  rw [oe_mount_resolve_scan env st p c buf hno hc] at hres
  cases hscan : (resolve_scan env.OE_PATH_MAX st._mount_table c (some buf)).ret with
  | none => rw [hscan] at hres; cases hres
  | some d =>
    rw [hscan] at hres
    have hd : d = dev := by simpa using hres
    subst hd
    obtain ⟨e, he, hfs, hm, _, hmax, _, _⟩ := scan_some _ _ _ _ _ hscan
    refine ⟨e, he, hfs, hm, ?_⟩
    intro e' he' hm'
    rw [spec_match_length_eq, spec_match_length_eq]
    have := hmax e' he' hm'
    omega

/-- Witness of C1: with devices at the root and at `/a`, the path `/a/x`
resolves to the device at `/a`. -/
theorem resolve_longest_match_witness :
    (sample_env.oe_get_thread_devid = none ∧
      sample_env.oe_realpath ['/', 'a', '/', 'x'] = .ok ['/', 'a', '/', 'x'] ∧
      (oe_mount_resolve sample_env sample_state (some ['/', 'a', '/', 'x']) (some [])).ret =
        some (fs_device 2)) ∧
    ∃ e ∈ sample_state._mount_table, e.fs = fs_device 2 ∧
      spec_matches e.path ['/', 'a', '/', 'x'] = true ∧
      ∀ e' ∈ sample_state._mount_table, spec_matches e'.path ['/', 'a', '/', 'x'] = true →
        ¬ spec_match_length e.path < spec_match_length e'.path :=
  ⟨⟨rfl, rfl, by decide⟩,
    resolve_longest_match sample_env sample_state ['/', 'a', '/', 'x'] ['/', 'a', '/', 'x'] []
      (fs_device 2) rfl rfl (by decide)⟩

/-- Counterexample to C2 as stated: the entry with the empty path matches
`/x` under the matching rule (the path starts with the empty string followed
by a slash), yet `oe_mount_resolve` fails with `OE_ENOENT`. -/
theorem resolve_enoent_iff_counterexample :
    ¬ (((oe_mount_resolve sample_env empty_path_state (some ['/', 'x']) (some [])).ret = none ∧
        (oe_mount_resolve sample_env empty_path_state (some ['/', 'x']) (some [])).oe_errno =
          .OE_ENOENT) ↔
      ¬ ∃ e ∈ empty_path_state._mount_table, spec_matches e.path ['/', 'x'] = true) := by
  decide

/-- C2 (amended): without a thread device override, `oe_mount_resolve` on a
path with canonical form `c` fails, with `OE_ENOENT`, if and only if no table
entry with a non-empty path matches `c`; otherwise it returns a device. -/
theorem resolve_enoent_iff (env : collaborators) (st : mount_state) (p c buf : List Char)
    (hno : env.oe_get_thread_devid = none) (hc : env.oe_realpath p = .ok c) :
    (((oe_mount_resolve env st (some p) (some buf)).ret = none ∧
        (oe_mount_resolve env st (some p) (some buf)).oe_errno = .OE_ENOENT) ↔
      ¬ ∃ e ∈ st._mount_table, e.path ≠ [] ∧ spec_matches e.path c = true) ∧
    ((∃ e ∈ st._mount_table, e.path ≠ [] ∧ spec_matches e.path c = true) →
      ∃ dev, (oe_mount_resolve env st (some p) (some buf)).ret = some dev) := by
  have hiff := scan_none_iff env.OE_PATH_MAX st._mount_table c (some buf)
  rw [oe_mount_resolve_scan env st p c buf hno hc]
  cases hscan : (resolve_scan env.OE_PATH_MAX st._mount_table c (some buf)).ret with
  | none =>
    have hall := hiff.1 hscan
    refine ⟨⟨fun _ => ?_, fun _ => ⟨rfl, rfl⟩⟩, ?_⟩
    · rintro ⟨e, he, hne, hm⟩
      exact hne (hall e he hm)
    · rintro ⟨e, he, hne, hm⟩
      exact absurd (hall e he hm) hne
  | some d =>
    have hnot : ¬ ∀ e ∈ st._mount_table, spec_matches e.path c = true → e.path = [] := by
      intro hall
      rw [hiff.2 hall] at hscan
      cases hscan
    refine ⟨⟨fun h => ?_, fun h => ?_⟩, fun _ => ⟨d, rfl⟩⟩
    · cases h.1
    · exfalso
      apply hnot
      intro e he hm
      by_contra hne
      exact h ⟨e, he, hne, hm⟩

/-- Witness of C2 (amended): no entry of the sample table is missed for
`/c`, which the root entry matches, so a device is returned. -/
theorem resolve_enoent_iff_witness :
    (sample_env.oe_get_thread_devid = none ∧ sample_env.oe_realpath ['/', 'c'] = .ok ['/', 'c']) ∧
    ((((oe_mount_resolve sample_env sample_state (some ['/', 'c']) (some [])).ret = none ∧
        (oe_mount_resolve sample_env sample_state (some ['/', 'c']) (some [])).oe_errno =
          .OE_ENOENT) ↔
      ¬ ∃ e ∈ sample_state._mount_table, e.path ≠ [] ∧ spec_matches e.path ['/', 'c'] = true) ∧
    ((∃ e ∈ sample_state._mount_table, e.path ≠ [] ∧ spec_matches e.path ['/', 'c'] = true) →
      ∃ dev, (oe_mount_resolve sample_env sample_state (some ['/', 'c']) (some [])).ret =
        some dev)) :=
  ⟨⟨rfl, rfl⟩, resolve_enoent_iff sample_env sample_state ['/', 'c'] ['/', 'c'] [] rfl rfl⟩

/-- Counterexample to C3 as stated: with the root entry winning (match
length 1) on `/c`, the suffix returned is `/c`, not `/c` with its first
character stripped. -/
theorem resolve_suffix_counterexample :
    (oe_mount_resolve sample_env root_state (some ['/', 'c']) (some [])).ret =
        some (fs_device 1) ∧
      (oe_mount_resolve sample_env root_state (some ['/', 'c']) (some [])).suffix =
        some ['/', 'c'] ∧
      (oe_mount_resolve sample_env root_state (some ['/', 'c']) (some [])).suffix ≠
        some (spec_suffix ['/', 'c'] (spec_match_length ['/'])) := by
  decide

/-- C3 (amended): without a thread device override, when `oe_mount_resolve`
succeeds on a canonical path `c` that fits the path buffer, the result is that
of a matching entry of greatest match length; if that entry is not the root
entry the suffix is `c` with the entry's path stripped, an empty remainder
replaced by a single slash, and if it is the root entry the suffix is `c`
itself. -/
theorem resolve_suffix (env : collaborators) (st : mount_state) (p c buf : List Char)
    (dev : oe_device_t)
    (hno : env.oe_get_thread_devid = none) (hc : env.oe_realpath p = .ok c)
    (hfit : c.length < env.OE_PATH_MAX)
    (hres : (oe_mount_resolve env st (some p) (some buf)).ret = some dev) :
    ∃ e ∈ st._mount_table, e.fs = dev ∧ spec_matches e.path c = true ∧
      (∀ e' ∈ st._mount_table, spec_matches e'.path c = true →
        ¬ spec_match_length e.path < spec_match_length e'.path) ∧
      (e.path ≠ ['/'] → (oe_mount_resolve env st (some p) (some buf)).suffix =
        some (spec_suffix c (spec_match_length e.path))) ∧
      (e.path = ['/'] → (oe_mount_resolve env st (some p) (some buf)).suffix = some c) := by
  rw [oe_mount_resolve_scan env st p c buf hno hc] at hres ⊢
  cases hscan : (resolve_scan env.OE_PATH_MAX st._mount_table c (some buf)).ret with
  | none => rw [hscan] at hres; cases hres
  | some d =>
    rw [hscan] at hres
    have hd : d = dev := by simpa using hres
    subst hd
    obtain ⟨e, he, hfs, hm, hpos, hmax, _, hs⟩ := scan_some _ _ _ _ _ hscan
    have hsuf := step_suffix_of_fits env.OE_PATH_MAX c e.path buf hfit hm hpos
    refine ⟨e, he, hfs, hm, ?_, ?_, ?_⟩
    · intro e' he' hm'
      rw [spec_match_length_eq, spec_match_length_eq]
      have := hmax e' he' hm'
      omega
    · intro hne
      rw [if_neg hne] at hsuf
      simp only [hs, hsuf, spec_match_length_eq]
    · intro hroot
      rw [if_pos hroot] at hsuf
      simp only [hs, hsuf]

/-- Witness of C3 (amended): with devices at the root and at `/a`, the path
`/a/x` resolves with the suffix of a greatest matching entry. -/
theorem resolve_suffix_witness :
    (sample_env.oe_get_thread_devid = none ∧
      sample_env.oe_realpath ['/', 'a', '/', 'x'] = .ok ['/', 'a', '/', 'x'] ∧
      ['/', 'a', '/', 'x'].length < sample_env.OE_PATH_MAX ∧
      (oe_mount_resolve sample_env sample_state (some ['/', 'a', '/', 'x']) (some [])).ret =
        some (fs_device 2)) ∧
    ∃ e ∈ sample_state._mount_table, e.fs = fs_device 2 ∧
      spec_matches e.path ['/', 'a', '/', 'x'] = true ∧
      (∀ e' ∈ sample_state._mount_table, spec_matches e'.path ['/', 'a', '/', 'x'] = true →
        ¬ spec_match_length e.path < spec_match_length e'.path) ∧
      (e.path ≠ ['/'] →
        (oe_mount_resolve sample_env sample_state (some ['/', 'a', '/', 'x']) (some [])).suffix =
          some (spec_suffix ['/', 'a', '/', 'x'] (spec_match_length e.path))) ∧
      (e.path = ['/'] →
        (oe_mount_resolve sample_env sample_state (some ['/', 'a', '/', 'x']) (some [])).suffix =
          some ['/', 'a', '/', 'x']) :=
  ⟨⟨rfl, rfl, by decide, by decide⟩,
    resolve_suffix sample_env sample_state ['/', 'a', '/', 'x'] ['/', 'a', '/', 'x'] []
      (fs_device 2) rfl rfl (by decide) (by decide)⟩

/-- C4: when the only table entry is a device mounted at the root, then
without a thread device override `oe_mount_resolve` of a path whose canonical
form `c` fits the path buffer returns that device, with `c` itself as the
suffix, and leaves `oe_errno` alone. -/
theorem resolve_root_fallback (env : collaborators) (st : mount_state) (p c buf : List Char)
    (dev : oe_device_t)
    (htable : st._mount_table = [⟨['/'], dev⟩])
    (hno : env.oe_get_thread_devid = none) (hc : env.oe_realpath p = .ok c)
    (hfit : c.length < env.OE_PATH_MAX) :
    oe_mount_resolve env st (some p) (some buf) = ⟨some dev, some c, st.oe_errno⟩ := by
  have hpm : env.OE_PATH_MAX ≠ 0 := by omega
  have htake : c.take (env.OE_PATH_MAX - 1) = c := List.take_of_length_le (by omega)
  rw [oe_mount_resolve_scan env st p c buf hno hc, htable]
  simp [resolve_scan, resolve_step, oe_strlen, oe_strlcpy, hpm, htake]

/-- Witness of C4: with only the root mounted, `/x/y` resolves to the root
device with suffix `/x/y`. -/
theorem resolve_root_fallback_witness :
    (root_state._mount_table = [⟨['/'], fs_device 1⟩] ∧
      sample_env.oe_get_thread_devid = none ∧
      sample_env.oe_realpath ['/', 'x', '/', 'y'] = .ok ['/', 'x', '/', 'y'] ∧
      ['/', 'x', '/', 'y'].length < sample_env.OE_PATH_MAX) ∧
    oe_mount_resolve sample_env root_state (some ['/', 'x', '/', 'y']) (some []) =
      ⟨some (fs_device 1), some ['/', 'x', '/', 'y'], root_state.oe_errno⟩ :=
  ⟨⟨rfl, rfl, rfl, by decide⟩,
    resolve_root_fallback sample_env root_state ['/', 'x', '/', 'y'] ['/', 'x', '/', 'y'] []
      (fs_device 1) rfl rfl rfl (by decide)⟩

/-- C5: after `oe_mount` succeeds at an absolute non-root `target`, resolving a
path whose canonical form is `target ++ "/" ++ b` (fitting the path buffer,
no thread device override) returns the device cloned by that mount, with
suffix `"/" ++ b`, provided no entry the table held before has a greater match
length on that canonical path. -/
theorem mount_then_resolve (env env2 : collaborators) (st : mount_state)
    (source fstype : Option (List Char)) (flags : Nat) (t b p buf : List Char)
    (hmount : (oe_mount env st source (some t) fstype flags).ret = 0)
    (habs : t.head? = some '/') (hnonroot : t ≠ ['/'])
    (hno : env2.oe_get_thread_devid = none)
    (hc : env2.oe_realpath p = .ok (t ++ '/' :: b))
    (hfit : (t ++ '/' :: b).length < env2.OE_PATH_MAX)
    (hlong : ∀ e ∈ st._mount_table, spec_matches e.path (t ++ '/' :: b) = true →
      ¬ spec_match_length t < spec_match_length e.path) :
    ∃ d nd, event.clone d nd ∈ (oe_mount env st source (some t) fstype flags).events ∧
      (oe_mount_resolve env2 (oe_mount env st source (some t) fstype flags).st (some p)
        (some buf)).ret = some nd ∧
      (oe_mount_resolve env2 (oe_mount env st source (some t) fstype flags).st (some p)
        (some buf)).suffix = some ('/' :: b) := by
  obtain ⟨_, hnodup, d, nd, _, _, htable, hev⟩ :=
    oe_mount_ret_zero env st source t fstype flags hmount
  refine ⟨d, nd, hev, ?_⟩
  have hcabs : (t ++ '/' :: b).head? = some '/' := by
    cases t with
    | nil => simp
    | cons a r => simpa using habs
  have htm := spec_matches_append_slash t b
  have htpos : 0 < t.length := by
    cases t with
    | nil => simp at habs
    | cons a r => simp
  rw [oe_mount_resolve_scan env2 _ p _ buf hno hc, htable]
  obtain ⟨hb, hcase⟩ := scan_inv_scan env2.OE_PATH_MAX st._mount_table (t ++ '/' :: b) (some buf)
  obtain ⟨s, hs⟩ := scan_suffix_some env2.OE_PATH_MAX st._mount_table (t ++ '/' :: b) buf
  have hlt : (resolve_scan env2.OE_PATH_MAX st._mount_table (t ++ '/' :: b) (some buf)).match_len
      < t.length := by
    rcases hcase with ⟨_, h0, _⟩ | ⟨e, he, hm, _, _, hlen, _⟩
    · omega
    · have hle := hlong e he hm
      rw [spec_match_length_eq, spec_match_length_eq] at hle
      rcases Nat.lt_or_ge e.path.length t.length with hlt | hge
      · omega
      · exfalso
        exact hnodup e he (spec_matches_tie _ _ _ hcabs hm htm (by omega))
  have hstep : resolve_scan env2.OE_PATH_MAX (st._mount_table ++ [⟨t, nd⟩]) (t ++ '/' :: b)
      (some buf) = ⟨some nd, t.length, some ('/' :: b)⟩ := by
    have hsuf := step_suffix_of_fits env2.OE_PATH_MAX (t ++ '/' :: b) t s hfit htm htpos
    rw [if_neg hnonroot] at hsuf
    have hss : spec_suffix (t ++ '/' :: b) t.length = '/' :: b := by
      simp [spec_suffix]
    unfold resolve_scan at hs hlt ⊢
    rw [List.foldl_append, List.foldl_cons, List.foldl_nil, resolve_step_eq]
    simp only [htm, hlt, and_self, if_true, hs, Option.map_some', hsuf, hss]
  rw [hstep]
  exact ⟨rfl, rfl⟩

/-- Witness of C5: with the root mounted, a mount at `/a` makes `/a/b`
resolve to the cloned device with suffix `/b`. -/
theorem mount_then_resolve_witness :
    ((oe_mount sample_env root_state none (some ['/', 'a']) (some ['f', 's']) 0).ret = 0 ∧
      ['/', 'a'].head? = some '/' ∧ ['/', 'a'] ≠ ['/'] ∧
      sample_env.oe_get_thread_devid = none ∧
      sample_env.oe_realpath ['/', 'a', '/', 'b'] = .ok (['/', 'a'] ++ '/' :: ['b']) ∧
      (['/', 'a'] ++ '/' :: ['b']).length < sample_env.OE_PATH_MAX ∧
      ∀ e ∈ root_state._mount_table, spec_matches e.path (['/', 'a'] ++ '/' :: ['b']) = true →
        ¬ spec_match_length ['/', 'a'] < spec_match_length e.path) ∧
    ∃ d nd,
      event.clone d nd ∈
        (oe_mount sample_env root_state none (some ['/', 'a']) (some ['f', 's']) 0).events ∧
      (oe_mount_resolve sample_env
        (oe_mount sample_env root_state none (some ['/', 'a']) (some ['f', 's']) 0).st
        (some ['/', 'a', '/', 'b']) (some [])).ret = some nd ∧
      (oe_mount_resolve sample_env
        (oe_mount sample_env root_state none (some ['/', 'a']) (some ['f', 's']) 0).st
        (some ['/', 'a', '/', 'b']) (some [])).suffix = some ('/' :: ['b']) :=
  ⟨⟨by decide, rfl, by decide, rfl, rfl, by decide, by decide⟩,
    mount_then_resolve sample_env sample_env root_state none (some ['f', 's']) 0 ['/', 'a'] ['b']
      ['/', 'a', '/', 'b'] [] (by decide) rfl (by decide) rfl rfl (by decide) (by decide)⟩

/-- Counterexample to C6 as stated: on a table of 63 entries a mount at `/t`
succeeds and fills the table; the immediately following mount of `/t` fails
with `OE_ENOMEM`, not `OE_EEXIST`, because the capacity check comes first. -/
theorem mount_duplicate_counterexample :
    (oe_mount sample_env (mounted_state 63) none (some ['/', 't']) (some ['f', 's']) 0).ret = 0 ∧
    (oe_mount sample_env
      (oe_mount sample_env (mounted_state 63) none (some ['/', 't']) (some ['f', 's']) 0).st
      none (some ['/', 't']) (some ['f', 's']) 0).ret = -1 ∧
    (oe_mount sample_env
      (oe_mount sample_env (mounted_state 63) none (some ['/', 't']) (some ['f', 's']) 0).st
      none (some ['/', 't']) (some ['f', 's']) 0).st.oe_errno = .OE_ENOMEM ∧
    (oe_mount sample_env
      (oe_mount sample_env (mounted_state 63) none (some ['/', 't']) (some ['f', 's']) 0).st
      none (some ['/', 't']) (some ['f', 's']) 0).st.oe_errno ≠ .OE_EEXIST := by
  decide

/-- C6 (amended): if `oe_mount` of a target succeeds, an immediately following
`oe_mount` of the same target that passes argument validation fails, performs
no device clone and leaves the table as it is; its cause is `OE_EEXIST` when
the table then holds fewer than 64 entries, and `OE_ENOMEM` when the first
mount filled the table, the capacity check coming before the duplicate
check. -/
theorem mount_duplicate_rejected (env env2 : collaborators) (st : mount_state)
    (source source2 fstype fstype2 : Option (List Char)) (flags flags2 : Nat) (t : List Char)
    (d2 : oe_device_t)
    (hfirst : (oe_mount env st source (some t) fstype flags).ret = 0)
    (hvalid : oe_mount_validate env2 t fstype2 = .ok d2) :
    (oe_mount env2 (oe_mount env st source (some t) fstype flags).st source2 (some t) fstype2
      flags2).ret = -1 ∧
    (∀ d nd, event.clone d nd ∉
      (oe_mount env2 (oe_mount env st source (some t) fstype flags).st source2 (some t) fstype2
        flags2).events) ∧
    (oe_mount env2 (oe_mount env st source (some t) fstype flags).st source2 (some t) fstype2
      flags2).st._mount_table =
        (oe_mount env st source (some t) fstype flags).st._mount_table ∧
    ((oe_mount env st source (some t) fstype flags).st._mount_table.length ≠
        MAX_MOUNT_TABLE_SIZE →
      (oe_mount env2 (oe_mount env st source (some t) fstype flags).st source2 (some t) fstype2
        flags2).st.oe_errno = .OE_EEXIST) ∧
    ((oe_mount env st source (some t) fstype flags).st._mount_table.length =
        MAX_MOUNT_TABLE_SIZE →
      (oe_mount env2 (oe_mount env st source (some t) fstype flags).st source2 (some t) fstype2
        flags2).st.oe_errno = .OE_ENOMEM) := by
  obtain ⟨_, _, d, nd, _, _, htable, _⟩ := oe_mount_ret_zero env st source t fstype flags hfirst
  generalize (oe_mount env st source (some t) fstype flags).st = st1 at htable ⊢
  have hdup : ∃ mp ∈ st1._mount_table, mp.path = t := ⟨⟨t, nd⟩, by simp [htable], rfl⟩
  have hunf : oe_mount env2 st1 source2 (some t) fstype2 flags2 =
      oe_mount_locked env2 st1 d2 source2 t flags2 := by
    simp [oe_mount, hvalid]
  rw [hunf]
  by_cases hfull : st1._mount_table.length = MAX_MOUNT_TABLE_SIZE
  · rw [oe_mount_locked_full env2 st1 d2 source2 t flags2 hfull]
    exact ⟨rfl, fun d nd => no_clone_in_atexit _ d nd, rfl, fun h => absurd hfull h, fun _ => rfl⟩
  · rw [oe_mount_locked_dup env2 st1 d2 source2 t flags2 hfull hdup]
    exact ⟨rfl, fun d nd => no_clone_in_atexit _ d nd, rfl, fun _ => rfl, fun h => absurd h hfull⟩

/-- Witness of C6 (amended): mounting `/a` twice over the root table. -/
theorem mount_duplicate_rejected_witness :
    ((oe_mount sample_env root_state none (some ['/', 'a']) (some ['f', 's']) 0).ret = 0 ∧
      oe_mount_validate sample_env ['/', 'a'] (some ['f', 's']) = .ok (fs_device 100)) ∧
    (oe_mount sample_env
      (oe_mount sample_env root_state none (some ['/', 'a']) (some ['f', 's']) 0).st
      none (some ['/', 'a']) (some ['f', 's']) 0).st.oe_errno = .OE_EEXIST :=
  ⟨⟨by decide, rfl⟩,
    (mount_duplicate_rejected sample_env sample_env root_state none none (some ['f', 's'])
      (some ['f', 's']) 0 0 ['/', 'a'] (fs_device 100) (by decide) rfl).2.2.2.1 (by decide)⟩

/-- C7: when the table holds 64 entries, an `oe_mount` that passes argument
validation fails with `OE_ENOMEM`, the cause raised for an exhausted table,
performs no clone, and leaves the 64 entries as they are. -/
theorem mount_table_full (env : collaborators) (st : mount_state)
    (source fstype : Option (List Char)) (flags : Nat) (t : List Char) (d : oe_device_t)
    (hfull : st._mount_table.length = 64)
    (hvalid : oe_mount_validate env t fstype = .ok d) :
    (oe_mount env st source (some t) fstype flags).ret = -1 ∧
    (oe_mount env st source (some t) fstype flags).st.oe_errno = .OE_ENOMEM ∧
    (∀ d' nd, event.clone d' nd ∉ (oe_mount env st source (some t) fstype flags).events) ∧
    (oe_mount env st source (some t) fstype flags).st._mount_table = st._mount_table ∧
    (oe_mount env st source (some t) fstype flags).st._mount_table.length = 64 := by
  have hunf : oe_mount env st source (some t) fstype flags =
      oe_mount_locked env st d source t flags := by
    simp [oe_mount, hvalid]
  rw [hunf, oe_mount_locked_full env st d source t flags hfull]
  exact ⟨rfl, rfl, fun d' nd => no_clone_in_atexit _ d' nd, rfl, hfull⟩

/-- Witness of C7: after 64 mounts from the empty table, the 65th fails. -/
theorem mount_table_full_witness :
    ((mounted_state 64)._mount_table.length = 64 ∧
      oe_mount_validate sample_env ['/', 't'] (some ['f', 's']) = .ok (fs_device 100)) ∧
    (oe_mount sample_env (mounted_state 64) none (some ['/', 't']) (some ['f', 's']) 0).ret = -1 ∧
    (oe_mount sample_env (mounted_state 64) none (some ['/', 't']) (some ['f', 's'])
      0).st.oe_errno = .OE_ENOMEM ∧
    (∀ d' nd, event.clone d' nd ∉
      (oe_mount sample_env (mounted_state 64) none (some ['/', 't']) (some ['f', 's']) 0).events) ∧
    (oe_mount sample_env (mounted_state 64) none (some ['/', 't']) (some ['f', 's'])
      0).st._mount_table = (mounted_state 64)._mount_table ∧
    (oe_mount sample_env (mounted_state 64) none (some ['/', 't']) (some ['f', 's'])
      0).st._mount_table.length = 64 :=
  ⟨⟨by decide, rfl⟩,
    mount_table_full sample_env (mounted_state 64) none (some ['f', 's']) 0 ['/', 't']
      (fs_device 100) (by decide) rfl⟩

/-- C8: when `oe_mount` reaches the `mount` hook of the cloned device and the
hook fails, `oe_mount` returns -1 with the value the hook left in `oe_errno`,
the table is exactly as before the call, the cloned handle is released exactly
once, and `oe_mount_resolve` returns the same device and suffix for every path
as before the call. -/
theorem mount_hook_rollback (env : collaborators) (st : mount_state)
    (source fstype : Option (List Char)) (flags : Nat) (t : List Char)
    (nd : oe_device_t) (rc : Int)
    (hhook : event.mount nd rc ∈ (oe_mount env st source (some t) fstype flags).events)
    (hfail : rc ≠ 0) :
    (oe_mount env st source (some t) fstype flags).ret = -1 ∧
    (oe_mount env st source (some t) fstype flags).st.oe_errno =
      (env.mount nd source t flags).2 ∧
    (oe_mount env st source (some t) fstype flags).st._mount_table = st._mount_table ∧
    (∃ d, event.clone d nd ∈ (oe_mount env st source (some t) fstype flags).events) ∧
    (oe_mount env st source (some t) fstype flags).events.count (.release nd) = 1 ∧
    ∀ (env2 : collaborators) (path suffix : Option (List Char)),
      (oe_mount_resolve env2 (oe_mount env st source (some t) fstype flags).st path suffix).ret =
        (oe_mount_resolve env2 st path suffix).ret ∧
      (oe_mount_resolve env2 (oe_mount env st source (some t) fstype flags).st path
        suffix).suffix = (oe_mount_resolve env2 st path suffix).suffix := by
  unfold oe_mount at hhook ⊢
  cases hv : oe_mount_validate env t fstype with
  | error e => simp [hv] at hhook
  | ok d =>
    simp only [hv] at hhook ⊢
    obtain ⟨h1, h2, h3, h4, h5⟩ :=
      oe_mount_locked_hook_failed env st d source t flags nd rc hhook hfail
    exact ⟨h1, h2, h3, ⟨d, h5⟩, h4, fun env2 path suffix =>
      oe_mount_resolve_table env2 st _ path suffix h3⟩

/-- Witness of C8: a failing hook while mounting `/a` over the root table. -/
theorem mount_hook_rollback_witness :
    (event.mount (fs_device 101) (-1) ∈
        (oe_mount failing_mount_env root_state none (some ['/', 'a']) (some ['f', 's']) 0).events ∧
      (-1 : Int) ≠ 0) ∧
    (oe_mount failing_mount_env root_state none (some ['/', 'a']) (some ['f', 's']) 0).ret = -1 ∧
    (oe_mount failing_mount_env root_state none (some ['/', 'a']) (some ['f', 's'])
      0).st.oe_errno = (failing_mount_env.mount (fs_device 101) none ['/', 'a'] 0).2 ∧
    (oe_mount failing_mount_env root_state none (some ['/', 'a']) (some ['f', 's'])
      0).st._mount_table = root_state._mount_table ∧
    (∃ d, event.clone d (fs_device 101) ∈
      (oe_mount failing_mount_env root_state none (some ['/', 'a']) (some ['f', 's']) 0).events) ∧
    (oe_mount failing_mount_env root_state none (some ['/', 'a']) (some ['f', 's'])
      0).events.count (.release (fs_device 101)) = 1 ∧
    ∀ (env2 : collaborators) (path suffix : Option (List Char)),
      (oe_mount_resolve env2
        (oe_mount failing_mount_env root_state none (some ['/', 'a']) (some ['f', 's']) 0).st
        path suffix).ret = (oe_mount_resolve env2 root_state path suffix).ret ∧
      (oe_mount_resolve env2
        (oe_mount failing_mount_env root_state none (some ['/', 'a']) (some ['f', 's']) 0).st
        path suffix).suffix = (oe_mount_resolve env2 root_state path suffix).suffix :=
  ⟨⟨by decide, by decide⟩,
    mount_hook_rollback failing_mount_env root_state none (some ['f', 's']) 0 ['/', 'a']
      (fs_device 101) (-1) (by decide) (by decide)⟩

/-- Counterexample to C9 as stated: on the empty table `/never-mounted` is the
path of no entry, and `oe_umount` fails with `OE_EINVAL`, not `OE_ENOENT`. -/
theorem umount_unknown_counterexample :
    (∀ mp ∈ initial_state._mount_table, mp.path ≠ "/never-mounted".toList) ∧
    (oe_umount sample_env initial_state (some "/never-mounted".toList)).ret = -1 ∧
    (oe_umount sample_env initial_state (some "/never-mounted".toList)).st.oe_errno =
      .OE_EINVAL ∧
    (oe_umount sample_env initial_state (some "/never-mounted".toList)).st.oe_errno ≠
      .OE_ENOENT := by
  decide

/-- C9 (amended): when `target` is the path of no table entry, `oe_umount`
fails, calls no hook and releases nothing, and leaves the table unchanged; the
cause is `OE_ENOENT` when `oe_mount_resolve` finds a filesystem device for
`target`, and `OE_EINVAL` when it does not. -/
theorem umount_unknown (env : collaborators) (st : mount_state) (t : List Char)
    (hnot : ∀ mp ∈ st._mount_table, mp.path ≠ t) :
    (oe_umount env st (some t)).ret = -1 ∧
    (oe_umount env st (some t)).st._mount_table = st._mount_table ∧
    (oe_umount env st (some t)).events = [] ∧
    ((∃ dev, (oe_mount_resolve env st (some t) (some [])).ret = some dev ∧
        dev.type = .OE_DEVICE_TYPE_FILESYSTEM) →
      (oe_umount env st (some t)).st.oe_errno = .OE_ENOENT) ∧
    ((¬ ∃ dev, (oe_mount_resolve env st (some t) (some [])).ret = some dev ∧
        dev.type = .OE_DEVICE_TYPE_FILESYSTEM) →
      (oe_umount env st (some t)).st.oe_errno = .OE_EINVAL) := by
  have hf := (find_mount_point_none t st._mount_table 0).2 hnot
  unfold oe_umount oe_umount2
  simp only
  cases hr : (oe_mount_resolve env st (some t) (some [])).ret with
  | none => simp
  | some device =>
    by_cases hty : device.type = .OE_DEVICE_TYPE_FILESYSTEM
    · simp [hty, hf]
    · simp [hty]

/-- Witness of C9 (amended): `/never-mounted` over the root table, where the
root entry makes the resolver succeed. -/
theorem umount_unknown_witness :
    (∀ mp ∈ root_state._mount_table, mp.path ≠ "/never-mounted".toList) ∧
    (oe_umount sample_env root_state (some "/never-mounted".toList)).ret = -1 ∧
    (oe_umount sample_env root_state (some "/never-mounted".toList)).st._mount_table =
      root_state._mount_table ∧
    (oe_umount sample_env root_state (some "/never-mounted".toList)).st.oe_errno =
      .OE_ENOENT :=
  ⟨by decide,
    (umount_unknown sample_env root_state "/never-mounted".toList (by decide)).1,
    (umount_unknown sample_env root_state "/never-mounted".toList (by decide)).2.1,
    (umount_unknown sample_env root_state "/never-mounted".toList (by decide)).2.2.2.1
      ⟨fs_device 1, by decide, rfl⟩⟩

/-- C10: on a table with pairwise distinct paths, after `oe_umount(t)` has
returned 0 the resolver gives on every path exactly the result (device, suffix
and `oe_errno`) it gives on the original table with the entry of path `t`
deleted, so that a path under `t` falls to the next-longest matching entry or
to `OE_ENOENT`. The canonical form `oe_realpath` gives the path is taken to be
absolute, as the canonicaliser's contract says. -/
theorem umount_then_resolve (env env2 : collaborators) (st : mount_state) (t : List Char)
    (path suffix : Option (List Char))
    (hnodup : (st._mount_table.map (fun mp => mp.path)).Nodup)
    (hok : (oe_umount env st (some t)).ret = 0)
    (habs : ∀ q c, path = some q → env2.oe_realpath q = .ok c → c.head? = some '/') :
    oe_mount_resolve env2 (oe_umount env st (some t)).st path suffix =
      oe_mount_resolve env2
        ⟨st._mount_table.filter (fun mp => mp.path != t),
          (oe_umount env st (some t)).st._installed_free_mount_table,
          (oe_umount env st (some t)).st.oe_errno⟩ path suffix := by
  obtain ⟨idx, e, hfind, htable, _⟩ := oe_umount_ret_zero env st t hok
  obtain ⟨j, hj, hget, hpath⟩ := find_mount_point_some t st._mount_table 0 idx e hfind
  have hidx : idx = j := by omega
  subst hidx
  symm
  refine oe_mount_resolve_congr env2
    ⟨st._mount_table.filter (fun mp => mp.path != t),
      (oe_umount env st (some t)).st._installed_free_mount_table,
      (oe_umount env st (some t)).st.oe_errno⟩
    (oe_umount env st (some t)).st path suffix habs rfl ?_ ?_
  · intro x
    rw [htable]
    exact (mem_remove_swap st._mount_table idx e t hnodup hget hpath x).symm
  · intro x hx y hy hxy
    exact List.inj_on_of_nodup_map hnodup (List.mem_filter.1 hx).1 (List.mem_filter.1 hy).1 hxy

/-- Witness of C10: with devices at the root and at `/a`, after unmounting
`/a` the path `/a/b` resolves as on the table that holds the root alone. -/
theorem umount_then_resolve_witness :
    ((sample_state._mount_table.map (fun mp => mp.path)).Nodup ∧
      (oe_umount sample_env sample_state (some ['/', 'a'])).ret = 0 ∧
      ∀ q c, some ['/', 'a', '/', 'b'] = some q → sample_env.oe_realpath q = .ok c →
        c.head? = some '/') ∧
    oe_mount_resolve sample_env (oe_umount sample_env sample_state (some ['/', 'a'])).st
        (some ['/', 'a', '/', 'b']) (some []) =
      oe_mount_resolve sample_env
        ⟨sample_state._mount_table.filter (fun mp => mp.path != ['/', 'a']),
          (oe_umount sample_env sample_state (some ['/', 'a'])).st._installed_free_mount_table,
          (oe_umount sample_env sample_state (some ['/', 'a'])).st.oe_errno⟩
        (some ['/', 'a', '/', 'b']) (some []) :=
  ⟨⟨by decide, by decide, by
      intro q c hq hc
      cases hq
      cases hc
      rfl⟩,
    umount_then_resolve sample_env sample_env sample_state ['/', 'a']
      (some ['/', 'a', '/', 'b']) (some []) (by decide) (by decide)
      (by
        intro q c hq hc
        cases hq
        cases hc
        rfl)⟩

/-! ## Theorems on unmount, sequences of calls and permutations -/

/-- C11: when `oe_umount2` has found the entry for `target` and the `unmount`
hook of its device fails, `oe_umount2` returns -1 with the value the hook left
in `oe_errno`, the entry stays swap-removed (the table is one entry shorter
and, its paths being pairwise distinct, `target` is no longer the path of any
entry), and no device handle is released. -/
theorem umount_hook_failure (env : collaborators) (st : mount_state) (t : List Char)
    (flags : Int) (fs : oe_device_t) (rc : Int)
    (hhook : event.unmount fs rc ∈ (oe_umount2 env st (some t) flags).events)
    (hfail : rc ≠ 0) :
    (oe_umount2 env st (some t) flags).ret = -1 ∧
    (oe_umount2 env st (some t) flags).st.oe_errno = (env.unmount fs t).2 ∧
    (∃ idx e, find_mount_point t st._mount_table 0 = some (idx, e) ∧ e.fs = fs ∧
      (oe_umount2 env st (some t) flags).st._mount_table =
        remove_swap st._mount_table idx e) ∧
    (oe_umount2 env st (some t) flags).st._mount_table.length + 1 = st._mount_table.length ∧
    ((st._mount_table.map (fun mp => mp.path)).Nodup →
      ∀ mp ∈ (oe_umount2 env st (some t) flags).st._mount_table, mp.path ≠ t) ∧
    (∀ d, event.release d ∉ (oe_umount2 env st (some t) flags).events) := by
  rcases oe_umount2_cases env st (some t) flags with
    ⟨_, _, hev⟩ | ⟨t', idx, e, dev, htt, _, _, hf, ht, hcase⟩
  · rw [hev] at hhook; cases hhook
  · cases htt
    obtain ⟨j, hj, hget, hpath⟩ := find_mount_point_some t st._mount_table 0 idx e hf
    have hidx : idx = j := by omega
    subst hidx
    rcases hcase with ⟨hret, _, herr, hev⟩ | ⟨_, hz, hev⟩
    · rw [hev] at hhook
      simp only [List.mem_singleton, event.unmount.injEq] at hhook
      obtain ⟨hfs, _⟩ := hhook
      subst hfs
      refine ⟨hret, herr, ⟨idx, e, hf, rfl, ht⟩, ?_, ?_, ?_⟩
      · rw [ht]; exact remove_swap_length _ _ _ hget
      · intro hnodup mp hmp
        rw [ht] at hmp
        have := (mem_remove_swap st._mount_table idx e t hnodup hget hpath mp).1 hmp
        simpa using (List.mem_filter.1 this).2
      · intro d
        rw [hev]
        simp
    · rw [hev] at hhook
      simp only [List.mem_cons, event.unmount.injEq, List.mem_singleton, reduceCtorEq,
        or_false, List.not_mem_nil] at hhook
      exact absurd hhook.2 hfail

/-- Witness of C11: the hook fails while `/a` is unmounted from the table
with the root and `/a`. -/
theorem umount_hook_failure_witness :
    (event.unmount (fs_device 2) (-1) ∈
        (oe_umount2 failing_unmount_env sample_state (some ['/', 'a']) 0).events ∧
      (-1 : Int) ≠ 0) ∧
    (oe_umount2 failing_unmount_env sample_state (some ['/', 'a']) 0).ret = -1 ∧
    (oe_umount2 failing_unmount_env sample_state (some ['/', 'a']) 0).st.oe_errno =
      (failing_unmount_env.unmount (fs_device 2) ['/', 'a']).2 ∧
    (∃ idx e, find_mount_point ['/', 'a'] sample_state._mount_table 0 = some (idx, e) ∧
      e.fs = fs_device 2 ∧
      (oe_umount2 failing_unmount_env sample_state (some ['/', 'a']) 0).st._mount_table =
        remove_swap sample_state._mount_table idx e) ∧
    (oe_umount2 failing_unmount_env sample_state (some ['/', 'a']) 0).st._mount_table.length + 1 =
      sample_state._mount_table.length ∧
    ((sample_state._mount_table.map (fun mp => mp.path)).Nodup →
      ∀ mp ∈ (oe_umount2 failing_unmount_env sample_state (some ['/', 'a']) 0).st._mount_table,
        mp.path ≠ ['/', 'a']) ∧
    (∀ d, event.release d ∉
      (oe_umount2 failing_unmount_env sample_state (some ['/', 'a']) 0).events) :=
  ⟨⟨by decide, by decide⟩,
    umount_hook_failure failing_unmount_env sample_state ['/', 'a'] 0 (fs_device 2) (-1)
      (by decide) (by decide)⟩

/-- Counterexample to C12 as stated: with the root mounted and `oe_stat`
reporting a directory, `oe_mount` with the empty string as target succeeds and
appends an entry; only a `NULL` target is rejected at line 136. -/
theorem mount_empty_target_counterexample :
    (oe_mount sample_env root_state none (some []) (some ['f', 's']) 0).ret = 0 ∧
    (oe_mount sample_env root_state none (some []) (some ['f', 's']) 0).st._mount_table =
      root_state._mount_table ++ [⟨[], fs_device 101⟩] ∧
    (oe_mount sample_env root_state none (some []) (some ['f', 's']) 0).st._mount_table ≠
      root_state._mount_table := by
  decide

/-- C12 (amended): `oe_mount` called with a `NULL` target fails with
`OE_EINVAL`, calls no collaborator and modifies neither the table nor the
exit-hook flag. -/
theorem mount_null_target (env : collaborators) (st : mount_state)
    (source fstype : Option (List Char)) (flags : Nat) :
    (oe_mount env st source none fstype flags).ret = -1 ∧
    (oe_mount env st source none fstype flags).st.oe_errno = .OE_EINVAL ∧
    (oe_mount env st source none fstype flags).st._mount_table = st._mount_table ∧
    (oe_mount env st source none fstype flags).st._installed_free_mount_table =
      st._installed_free_mount_table ∧
    (oe_mount env st source none fstype flags).events = [] :=
  ⟨rfl, rfl, rfl, rfl, rfl⟩

/-- C14: in every state reached from the empty table by a sequence of
`oe_mount` and `oe_umount2` calls, whatever the collaborators answer in each
call, the paths of the live entries are pairwise distinct. -/
theorem reachable_distinct_paths (e : oe_errno_t) (calls : List call) :
    ((run_calls (start_state e) calls)._mount_table.map (fun mp => mp.path)).Nodup :=
  run_calls_induction (fun s => (s._mount_table.map (fun mp => mp.path)).Nodup)
    (start_state e) calls (by simp [start_state]) apply_call_nodup_paths

/-- C15: in every state reached from the empty table by `oe_mount` and
`oe_umount2` calls the table holds at most 64 entries; a further `oe_mount`
that gets as far as its clone, and so writes slot `_mount_table_size`, finds
the size below 64, and a further `oe_umount2` that gets as far as its hook,
and so has read slot `_mount_table_size - 1`, finds the size above 0. -/
theorem reachable_bounded (e : oe_errno_t) (calls : List call) :
    (run_calls (start_state e) calls)._mount_table.length ≤ 64 ∧
    (∀ env source target fstype flags d nd,
      event.clone d nd ∈
          (oe_mount env (run_calls (start_state e) calls) source target fstype flags).events →
        (run_calls (start_state e) calls)._mount_table.length < 64) ∧
    (∀ env target flags fs rc,
      event.unmount fs rc ∈
          (oe_umount2 env (run_calls (start_state e) calls) target flags).events →
        0 < (run_calls (start_state e) calls)._mount_table.length) := by
  have hle : (run_calls (start_state e) calls)._mount_table.length ≤ MAX_MOUNT_TABLE_SIZE :=
    run_calls_induction (fun s => s._mount_table.length ≤ MAX_MOUNT_TABLE_SIZE)
      (start_state e) calls (by simp [start_state]) apply_call_length_le
  generalize run_calls (start_state e) calls = st at hle ⊢
  refine ⟨hle, ?_, ?_⟩
  · intro env source target fstype flags d nd hev
    rcases oe_mount_cases env st source target fstype flags with
      ⟨_, _, h0 | h0⟩ | ⟨_, _, _, _, _, _, _, _, hsize, _⟩ | ⟨_, _, _, _, _, _, _, hsize, _⟩
    · rw [h0] at hev; cases hev
    · rw [h0] at hev; simp at hev
    · simp only [MAX_MOUNT_TABLE_SIZE] at hsize hle; omega
    · simp only [MAX_MOUNT_TABLE_SIZE] at hsize hle; omega
  · intro env target flags fs rc hev
    rcases oe_umount2_cases env st target flags with
      ⟨_, _, h0⟩ | ⟨t, idx, e', dev, _, _, _, hf, _, _⟩
    · rw [h0] at hev; cases hev
    · obtain ⟨j, _, hget, _⟩ := find_mount_point_some t st._mount_table 0 idx e' hf
      by_contra hlen
      have : st._mount_table = [] := List.length_eq_zero.1 (by omega)
      rw [this] at hget
      simp at hget

/-- C16: when `oe_umount2` gets to its search and finds the entry `e` for
`target` at index `i`, then whatever the hook answers the resulting table is
one entry shorter, its slot `i` (if still live) holds the former last entry,
every other live slot is unchanged, and the entries afterwards are the former
entries with one `e` taken out: on a table without repeated entries, exactly
the former entries other than `e`. -/
theorem umount_swap_remove_frame (env : collaborators) (st : mount_state) (t : List Char)
    (flags : Int) (i : Nat) (e : mount_point_t)
    (hfind : find_mount_point t st._mount_table 0 = some (i, e))
    (hreached : (oe_umount2 env st (some t) flags).events ≠ []) :
    (oe_umount2 env st (some t) flags).st._mount_table.length + 1 = st._mount_table.length ∧
    (∀ j, j < (oe_umount2 env st (some t) flags).st._mount_table.length →
      (oe_umount2 env st (some t) flags).st._mount_table[j]? =
        if j = i then st._mount_table[st._mount_table.length - 1]? else st._mount_table[j]?) ∧
    (e :: (oe_umount2 env st (some t) flags).st._mount_table).Perm st._mount_table ∧
    (st._mount_table.Nodup →
      ∀ x, x ∈ (oe_umount2 env st (some t) flags).st._mount_table ↔
        (x ∈ st._mount_table ∧ x ≠ e)) := by
  rcases oe_umount2_cases env st (some t) flags with
    ⟨_, _, hev⟩ | ⟨t', idx, e', dev, htt, _, _, hf, ht, _⟩
  · exact absurd hev hreached
  · cases htt
    rw [hfind] at hf
    simp only [Option.some.injEq, Prod.mk.injEq] at hf
    obtain ⟨h1, h2⟩ := hf
    subst h1 h2
    obtain ⟨j, hj, hget, _⟩ := find_mount_point_some t st._mount_table 0 i e hfind
    have hidx : i = j := by omega
    subst hidx
    have hlen := remove_swap_length st._mount_table i e hget
    have hperm := remove_swap_perm st._mount_table i e hget
    have hi : i < st._mount_table.length := by
      by_contra hcon
      rw [List.getElem?_eq_none (by omega)] at hget
      cases hget
    rw [ht]
    refine ⟨hlen, ?_, hperm, ?_⟩
    · intro j hj
      exact remove_swap_getElem? st._mount_table i e j hi (by omega)
    · intro hnodup x
      have hnd : (e :: remove_swap st._mount_table i e).Nodup := hperm.nodup_iff.2 hnodup
      constructor
      · intro hx
        refine ⟨hperm.subset (List.mem_cons_of_mem _ hx), ?_⟩
        intro hxe
        subst hxe
        exact (List.nodup_cons.1 hnd).1 hx
      · rintro ⟨hx, hne⟩
        rcases List.mem_cons.1 (hperm.symm.subset hx) with h | h
        · exact absurd h hne
        · exact h

/-- Witness of C16: unmounting the root from the table with the root and
`/a` moves the entry of `/a` into slot 0. -/
theorem umount_swap_remove_frame_witness :
    (find_mount_point ['/'] sample_state._mount_table 0 = some (0, ⟨['/'], fs_device 1⟩) ∧
      (oe_umount2 sample_env sample_state (some ['/']) 0).events ≠ []) ∧
    (oe_umount2 sample_env sample_state (some ['/']) 0).st._mount_table.length + 1 =
      sample_state._mount_table.length ∧
    (∀ j, j < (oe_umount2 sample_env sample_state (some ['/']) 0).st._mount_table.length →
      (oe_umount2 sample_env sample_state (some ['/']) 0).st._mount_table[j]? =
        if j = 0 then sample_state._mount_table[sample_state._mount_table.length - 1]?
        else sample_state._mount_table[j]?) ∧
    ((⟨['/'], fs_device 1⟩ : mount_point_t) ::
      (oe_umount2 sample_env sample_state (some ['/']) 0).st._mount_table).Perm
        sample_state._mount_table ∧
    (sample_state._mount_table.Nodup →
      ∀ x, x ∈ (oe_umount2 sample_env sample_state (some ['/']) 0).st._mount_table ↔
        (x ∈ sample_state._mount_table ∧ x ≠ ⟨['/'], fs_device 1⟩)) :=
  ⟨⟨by decide, by decide⟩,
    umount_swap_remove_frame sample_env sample_state ['/'] 0 0 ⟨['/'], fs_device 1⟩
      (by decide) (by decide)⟩

/-- Counterexample to C17 as stated: after the root, `/a/` is mounted; the
target is stored as it was passed, trailing slash included. -/
theorem reachable_path_shape_counterexample :
    (⟨['/', 'a', '/'], fs_device 101⟩ : mount_point_t) ∈
        (run_calls (start_state (.other 0))
          [.mount sample_env none (some ['/']) (some ['f', 's']) 0,
            .mount sample_env none (some ['/', 'a', '/']) (some ['f', 's']) 0])._mount_table ∧
      path_shape ['/', 'a', '/'] = false := by
  decide

/-- C17 (amended): in every state reached from the empty table by `oe_mount`
and `oe_umount2` calls whose mount targets are all the root or absolute
strings without a trailing slash, every live entry's path is the root or an
absolute string without a trailing slash: `oe_mount` stores its target as
passed. -/
theorem reachable_path_shape (e : oe_errno_t) (calls : List call)
    (htargets : ∀ t ∈ mount_targets calls, path_shape t = true) :
    ∀ mp ∈ (run_calls (start_state e) calls)._mount_table, path_shape mp.path = true :=
  run_calls_paths (fun p => path_shape p = true) calls (start_state e)
    (by simp [start_state]) htargets

/-- Witness of C17 (amended): the root and `/a` mounted in turn. -/
theorem reachable_path_shape_witness :
    (∀ t ∈ mount_targets
        [.mount sample_env none (some ['/']) (some ['f', 's']) 0,
          .mount sample_env none (some ['/', 'a']) (some ['f', 's']) 0],
      path_shape t = true) ∧
    ∀ mp ∈ (run_calls (start_state (.other 0))
        [.mount sample_env none (some ['/']) (some ['f', 's']) 0,
          .mount sample_env none (some ['/', 'a']) (some ['f', 's']) 0])._mount_table,
      path_shape mp.path = true :=
  ⟨by decide,
    reachable_path_shape (.other 0)
      [.mount sample_env none (some ['/']) (some ['f', 's']) 0,
        .mount sample_env none (some ['/', 'a']) (some ['f', 's']) 0] (by decide)⟩

/-- C18: assume that in every `oe_mount` call `clone` yields a handle distinct
from every handle live at that call. Then in every state reached from the
empty table by `oe_mount` and `oe_umount2` calls no device handle is held by
two live entries, and no live entry holds a handle that has been released, on
unmount success or on mount rollback, and not been handed out by `clone`
again since. -/
theorem reachable_exclusive_handles (e : oe_errno_t) (calls : List call)
    (hfresh : clone_fresh (start_state e) calls) :
    ((run_calls (start_state e) calls)._mount_table.map (fun mp => mp.fs)).Nodup ∧
    ∀ mp ∈ (run_calls (start_state e) calls)._mount_table,
      mp.fs ∉ run_released (start_state e) [] calls :=
  handles_inv_run calls (start_state e) []
    ⟨by simp [start_state], by simp [start_state]⟩ hfresh

/-- Witness of C18: `/a` is mounted and unmounted, its handle released, then
`/b` and `/c` are mounted, the last one with a failing hook. -/
theorem reachable_exclusive_handles_witness :
    clone_fresh (start_state (.other 0))
      [.mount (numbered_env 0) none (some ['/', 'a']) (some ['f', 's']) 0,
        .umount2 sample_env (some ['/', 'a']) 0,
        .mount (numbered_env 1) none (some ['/', 'b']) (some ['f', 's']) 0,
        .mount (failing_numbered_env 2) none (some ['/', 'c']) (some ['f', 's']) 0] ∧
    ((run_calls (start_state (.other 0))
      [.mount (numbered_env 0) none (some ['/', 'a']) (some ['f', 's']) 0,
        .umount2 sample_env (some ['/', 'a']) 0,
        .mount (numbered_env 1) none (some ['/', 'b']) (some ['f', 's']) 0,
        .mount (failing_numbered_env 2) none (some ['/', 'c']) (some ['f', 's']) 0])._mount_table.map
          (fun mp => mp.fs)).Nodup ∧
    ∀ mp ∈ (run_calls (start_state (.other 0))
      [.mount (numbered_env 0) none (some ['/', 'a']) (some ['f', 's']) 0,
        .umount2 sample_env (some ['/', 'a']) 0,
        .mount (numbered_env 1) none (some ['/', 'b']) (some ['f', 's']) 0,
        .mount (failing_numbered_env 2) none (some ['/', 'c']) (some ['f', 's']) 0])._mount_table,
      mp.fs ∉ run_released (start_state (.other 0)) []
        [.mount (numbered_env 0) none (some ['/', 'a']) (some ['f', 's']) 0,
          .umount2 sample_env (some ['/', 'a']) 0,
          .mount (numbered_env 1) none (some ['/', 'b']) (some ['f', 's']) 0,
          .mount (failing_numbered_env 2) none (some ['/', 'c']) (some ['f', 's']) 0] :=
  have hfresh : clone_fresh (start_state (.other 0))
      [.mount (numbered_env 0) none (some ['/', 'a']) (some ['f', 's']) 0,
        .umount2 sample_env (some ['/', 'a']) 0,
        .mount (numbered_env 1) none (some ['/', 'b']) (some ['f', 's']) 0,
        .mount (failing_numbered_env 2) none (some ['/', 'c']) (some ['f', 's']) 0] := by
    refine ⟨?_, trivial, ?_, ?_, trivial⟩
    · intro d nd _ mp hmp
      have hm : mp ∈ ([] : List mount_point_t) := hmp
      cases hm
    · intro d nd _ mp hmp
      have hm : mp ∈ ([] : List mount_point_t) := hmp
      cases hm
    · intro d nd hcl mp hmp
      have hm : mp ∈ [(⟨['/', 'b'], fs_device 2⟩ : mount_point_t)] := hmp
      have hd : some (fs_device 3) = some nd := hcl
      simp only [List.mem_singleton] at hm
      cases hd
      subst hm
      decide
  ⟨hfresh, reachable_exclusive_handles (.other 0) _ hfresh⟩

/-- C19: for two tables that are permutations of one another, with pairwise
distinct paths, `oe_mount_resolve` returns the same device, suffix and
`oe_errno` on every path whose canonical form is absolute; and two entries of
such a table that match the same absolute path with the same match length are
the same entry. -/
theorem resolve_permutation (env : collaborators) (st st' : mount_state)
    (path suffix : Option (List Char))
    (hnodup : (st._mount_table.map (fun mp => mp.path)).Nodup)
    (hperm : st'._mount_table.Perm st._mount_table)
    (herrno : st'.oe_errno = st.oe_errno)
    (habs : ∀ q c, path = some q → env.oe_realpath q = .ok c → c.head? = some '/') :
    oe_mount_resolve env st' path suffix = oe_mount_resolve env st path suffix ∧
    ∀ c : List Char, c.head? = some '/' →
      ∀ a ∈ st._mount_table, ∀ b ∈ st._mount_table,
        spec_matches a.path c = true → spec_matches b.path c = true →
        spec_match_length a.path = spec_match_length b.path → a = b := by
  have hinj := List.inj_on_of_nodup_map hnodup
  refine ⟨?_, ?_⟩
  · symm
    exact oe_mount_resolve_congr env st st' path suffix habs herrno
      (fun x => (hperm.mem_iff).symm) (fun x hx y hy hxy => hinj hx hy hxy)
  · intro c hc a ha b hb hma hmb hlen
    rw [spec_match_length_eq, spec_match_length_eq] at hlen
    exact hinj ha hb (spec_matches_tie _ _ c hc hma hmb hlen)

/-- Witness of C19: the table with the root and `/a`, and the same two
entries in the other order. -/
theorem resolve_permutation_witness :
    ((sample_state._mount_table.map (fun mp => mp.path)).Nodup ∧
      (⟨sample_state._mount_table.reverse, true, .other 0⟩ : mount_state)._mount_table.Perm
        sample_state._mount_table ∧
      (⟨sample_state._mount_table.reverse, true, .other 0⟩ : mount_state).oe_errno =
        sample_state.oe_errno) ∧
    oe_mount_resolve sample_env ⟨sample_state._mount_table.reverse, true, .other 0⟩
        (some ['/', 'a', '/', 'x']) (some []) =
      oe_mount_resolve sample_env sample_state (some ['/', 'a', '/', 'x']) (some []) :=
  ⟨⟨by decide, List.reverse_perm _, rfl⟩,
    (resolve_permutation sample_env sample_state ⟨sample_state._mount_table.reverse, true, .other 0⟩
      (some ['/', 'a', '/', 'x']) (some []) (by decide) (List.reverse_perm _) rfl
      (by
        intro q c hq hc
        cases hq
        cases hc
        rfl)).1⟩

/-- Counterexample to C20 as stated: `/a/` is mounted on the empty table and
stored as passed; the canonicaliser turns `/a/` into `/a`, which the entry
`/a/` does not match, so the `oe_umount` that follows fails with `OE_EINVAL`
without calling the hook, and the entry stays. -/
theorem mount_umount_round_trip_counterexample :
    (oe_mount trimming_env initial_state none (some ['/', 'a', '/']) (some ['f', 's']) 0).ret = 0 ∧
    trimming_env.oe_get_thread_devid = none ∧
    (trimming_env.unmount (fs_device 101) ['/', 'a', '/']).1 = 0 ∧
    (oe_umount trimming_env
      (oe_mount trimming_env initial_state none (some ['/', 'a', '/']) (some ['f', 's']) 0).st
      (some ['/', 'a', '/'])).ret = -1 ∧
    (oe_umount trimming_env
      (oe_mount trimming_env initial_state none (some ['/', 'a', '/']) (some ['f', 's']) 0).st
      (some ['/', 'a', '/'])).st.oe_errno = .OE_EINVAL ∧
    (oe_umount trimming_env
      (oe_mount trimming_env initial_state none (some ['/', 'a', '/']) (some ['f', 's']) 0).st
      (some ['/', 'a', '/'])).st._mount_table ≠ initial_state._mount_table := by
  decide

/-- C20 (amended): if `oe_mount(target)` succeeds, an immediately following
`oe_umount(target)` whose `oe_mount_resolve(target)` returns a filesystem
device and whose `unmount` hook succeeds on the cloned handle returns 0,
leaves the table exactly as it was before the mount, and releases the handle
cloned by the mount. -/
theorem mount_umount_round_trip (env env2 : collaborators) (st : mount_state)
    (source fstype : Option (List Char)) (flags : Nat) (t : List Char) (dev : oe_device_t)
    (hmount : (oe_mount env st source (some t) fstype flags).ret = 0)
    (hres : (oe_mount_resolve env2 (oe_mount env st source (some t) fstype flags).st (some t)
      (some [])).ret = some dev)
    (hty : dev.type = .OE_DEVICE_TYPE_FILESYSTEM)
    (hhook : ∀ d nd, event.clone d nd ∈ (oe_mount env st source (some t) fstype flags).events →
      (env2.unmount nd t).1 = 0) :
    (oe_umount env2 (oe_mount env st source (some t) fstype flags).st (some t)).ret = 0 ∧
    (oe_umount env2 (oe_mount env st source (some t) fstype flags).st
      (some t)).st._mount_table = st._mount_table ∧
    ∃ d nd, event.clone d nd ∈ (oe_mount env st source (some t) fstype flags).events ∧
      event.release nd ∈
        (oe_umount env2 (oe_mount env st source (some t) fstype flags).st (some t)).events := by
  obtain ⟨_, hnodup, d, nd, _, _, htable, hev⟩ :=
    oe_mount_ret_zero env st source t fstype flags hmount
  have hz := hhook d nd hev
  generalize (oe_mount env st source (some t) fstype flags).st = st1 at htable hres ⊢
  have hfind : find_mount_point t st1._mount_table 0 = some (st._mount_table.length, ⟨t, nd⟩) := by
    rw [htable, find_mount_point_append_new t st._mount_table ⟨t, nd⟩ 0 hnodup rfl]
    simp
  have hrm : remove_swap st1._mount_table st._mount_table.length ⟨t, nd⟩ = st._mount_table := by
    rw [htable]; exact remove_swap_last _ _
  unfold oe_umount
  rcases oe_umount2_cases env2 st1 (some t) 0 with
    ⟨_, _, _⟩ | ⟨t', idx, e, dev', htt, hr', hty', hf, ht, hcase⟩
  · exfalso
    rename_i h1 h2 h3
    unfold oe_umount2 at h3
    simp only [hres, hty, hfind, hz] at h3
    simp at h3
  · cases htt
    rw [hfind] at hf
    simp only [Option.some.injEq, Prod.mk.injEq] at hf
    obtain ⟨h1, h2⟩ := hf
    subst h1 h2
    rcases hcase with ⟨_, hnz, _, _⟩ | ⟨hret, _, hevu⟩
    · exact absurd hz hnz
    · refine ⟨hret, by rw [ht, hrm], d, nd, hev, ?_⟩
      rw [hevu]
      simp

/-- Witness of C20 (amended): `/a` mounted over the root table and unmounted
again. -/
theorem mount_umount_round_trip_witness :
    ((oe_mount sample_env root_state none (some ['/', 'a']) (some ['f', 's']) 0).ret = 0 ∧
      (oe_mount_resolve sample_env
        (oe_mount sample_env root_state none (some ['/', 'a']) (some ['f', 's']) 0).st
        (some ['/', 'a']) (some [])).ret = some (fs_device 101) ∧
      (fs_device 101).type = .OE_DEVICE_TYPE_FILESYSTEM) ∧
    (oe_umount sample_env
      (oe_mount sample_env root_state none (some ['/', 'a']) (some ['f', 's']) 0).st
      (some ['/', 'a'])).ret = 0 ∧
    (oe_umount sample_env
      (oe_mount sample_env root_state none (some ['/', 'a']) (some ['f', 's']) 0).st
      (some ['/', 'a'])).st._mount_table = root_state._mount_table ∧
    ∃ d nd,
      event.clone d nd ∈
        (oe_mount sample_env root_state none (some ['/', 'a']) (some ['f', 's']) 0).events ∧
      event.release nd ∈
        (oe_umount sample_env
          (oe_mount sample_env root_state none (some ['/', 'a']) (some ['f', 's']) 0).st
          (some ['/', 'a'])).events :=
  ⟨⟨by decide, by decide, rfl⟩,
    mount_umount_round_trip sample_env sample_env root_state none (some ['f', 's']) 0 ['/', 'a']
      (fs_device 101) (by decide) (by decide) rfl (fun _ _ _ => rfl)⟩

end OEMount
